import Mathlib

/-!
Verification of the Apprise URL-resolution and configuration-aggregation
layer: a shallow embedding of `apprise/apprise_config.py`,
`apprise/plugins/pushjet.py` and `apprise/plugins/mattermost.py`.
Python strings are embedded as lists of characters; fallible code returns
`Option` or `Except`; raised exceptions are `Except.error` values.
Definitions that embed code living outside the three source files
(utility helpers, the plugin base class, the scheme registries) are marked
`Modelled from the spec:` in their doc comment and follow the wording of
the natural-language specification.
-/

namespace Apprise

/-- Python strings are embedded as lists of characters. -/
abbrev Str := List Char

/-- Coerces a Lean string literal to the embedded string type. -/
def str (s : String) : Str := s.data

/-! ## Tag logic (spec section 4.4) -/

/-- One element of a tag expression: a scalar literal acting as an
OR-branch, or a tuple of literals acting as an AND-group. -/
inductive TagElem
  | single (t : Str)
  | group (ts : List Str)
deriving DecidableEq

/-- Modelled from the spec: the reserved match-all token of
`apprise.common` (every entry matches it). -/
def MATCH_ALL_TAG : Str := str "all"

/-- Modelled from the spec: the reserved universal tag of
`apprise.common`; an entry carrying it matches any scalar query when
match-always handling is enabled. -/
def MATCH_ALWAYS_TAG : Str := str "always"

/-- Modelled from the spec: one OR-branch of
`apprise.utils.logic.is_exclusive_match`.  A scalar is satisfied when the
literal is among the entry tags, equals the match-all token, or the
match-always token is enabled and present among the entry tags; an
AND-group is satisfied only when every literal of the group is among the
entry tags. -/
def elemMatch (data : List Str) (matchAll : Str) (matchAlways : Option Str) :
    TagElem → Bool
  | .single t =>
      data.contains t || t == matchAll ||
        (match matchAlways with
         | some a => data.contains a
         | none => false)
  | .group ts => ts.all (fun t => data.contains t)

/-- Modelled from the spec: `apprise.utils.logic.is_exclusive_match`, the
disjunctive-normal-form tag evaluator — the top-level list is an OR over
its elements. -/
def is_exclusive_match (logic : List TagElem) (data : List Str)
    (matchAll : Str) (matchAlways : Option Str) : Bool :=
  logic.any (elemMatch data matchAll matchAlways)

/-! ## Config sources as seen by the aggregator

The aggregator (`AppriseConfig`) only interacts with a config source
through its tag set, its `servers()` list and its `pop(index)` method, so
a source is embedded as a tag set together with the notifier list its
`servers()` call produces; the notifier type is abstract (`α`). -/

/-- One owned config source: its tag set and the notifier list produced by
its `servers()` call. -/
structure ConfigSource (α : Type) where
  tags : List Str
  serverList : List α
deriving DecidableEq

/-- Modelled from the spec: `ConfigBase.servers` exposes the source's
current notifier list. -/
def ConfigSource.servers {α : Type} (c : ConfigSource α) : List α :=
  c.serverList

/-- Python list indexing: a negative index counts from the end; an index
outside `[-len, len)` is invalid. -/
def pyIndex (len : Nat) (index : Int) : Option Nat :=
  let j : Int := if index < 0 then index + len else index
  if 0 ≤ j ∧ j < len then some j.toNat else none

/-- Modelled from the spec: `ConfigBase.pop` removes and returns the
indexed notifier of the source (Python `list.pop` semantics); an invalid
index raises `IndexError`, embedded as `none`. -/
def ConfigSource.pop {α : Type} (c : ConfigSource α) (index : Int) :
    Option (α × ConfigSource α) :=
  match pyIndex c.serverList.length index with
  | none => none
  | some j =>
    match c.serverList[j]? with
    | none => none
    | some x => some (x, ⟨c.tags, c.serverList.eraseIdx j⟩)

/-- The loop of `AppriseConfig.server_pop` (apprise_config.py lines
450-465): walk the sources keeping the running maximum flattened offset
(`prev`, starting at `-1`); a source with a non-empty server list whose
new offset reaches the requested index is asked to `pop` the translated
local index; sources with no servers are skipped without touching the
offset. -/
def AppriseConfig.serverPopGo {α : Type} (index : Int) (prev : Int) :
    List (ConfigSource α) → Except String (α × List (ConfigSource α))
  | [] => .error "list index out of range"
  | entry :: rest =>
    let servers := entry.servers
    if servers.length > 0 then
      let offset : Int := prev + servers.length
      if offset ≥ index then
        match entry.pop (if prev = -1 then index else index - prev - 1) with
        | some (x, entry2) => .ok (x, entry2 :: rest)
        | none => .error "list index out of range"
      else
        match AppriseConfig.serverPopGo index offset rest with
        | .ok (x, rest2) => .ok (x, entry :: rest2)
        | .error e => .error e
    else
      match AppriseConfig.serverPopGo index prev rest with
      | .ok (x, rest2) => .ok (x, entry :: rest2)
      | .error e => .error e

/-- `AppriseConfig.server_pop` (apprise_config.py lines 443-468): removes
an indexed notification from the flattened server view; reaching the end
of the source list raises `IndexError("list index out of range")`. -/
def AppriseConfig.server_pop {α : Type} (configs : List (ConfigSource α))
    (index : Int) : Except String (α × List (ConfigSource α)) :=
  AppriseConfig.serverPopGo index (-1) configs

/-- Follows the specification text of flattened-index removal, for
comparison with `AppriseConfig.server_pop`: an index below the first
source's server count pops locally from the first source; otherwise the
first source's count is subtracted and the walk continues; running out of
sources is the out-of-range error. -/
def flatPopSpec {α : Type} :
    List (ConfigSource α) → Nat → Except String (α × List (ConfigSource α))
  | [], _ => .error "list index out of range"
  | e :: rest, i =>
    match e.serverList[i]? with
    | some x => .ok (x, ⟨e.tags, e.serverList.eraseIdx i⟩ :: rest)
    | none =>
      match flatPopSpec rest (i - e.serverList.length) with
      | .ok (x, rest2) => .ok (x, e :: rest2)
      | .error err => .error err

/-- The flattened notifier view across all sources, in insertion order. -/
def flatServers {α : Type} (configs : List (ConfigSource α)) : List α :=
  (configs.map ConfigSource.servers).flatten

/-- The loop of `AppriseConfig.servers` (apprise_config.py lines 345-360):
extend the response with the servers of every source whose tags satisfy
the exclusive-match logic. -/
def AppriseConfig.serversGo {α : Type} (logic : List TagElem)
    (matchAlways : Option Str) : List (ConfigSource α) → List α
  | [] => []
  | e :: rest =>
    if is_exclusive_match logic e.tags MATCH_ALL_TAG matchAlways then
      e.servers ++ AppriseConfig.serversGo logic matchAlways rest
    else
      AppriseConfig.serversGo logic matchAlways rest

/-- `AppriseConfig.servers` (apprise_config.py lines 312-360): the
tag-filtered flattened notifier list, recomputed from the current config
list on every call. -/
def AppriseConfig.servers {α : Type} (configs : List (ConfigSource α))
    (logic : List TagElem) (match_always : Bool) : List α :=
  AppriseConfig.serversGo logic
    (if match_always then some MATCH_ALWAYS_TAG else none) configs

/-! ## String helpers shared by the URL machinery -/

/-- Whitespace recognised by Python's `str.strip`. -/
def isSpaceChar (c : Char) : Bool :=
  c == ' ' || c == '\t' || c == '\n' || c == '\r' || c == '\x0b' || c == '\x0c'

/-- Python `str.strip()`: surrounding whitespace removed. -/
def strip (s : Str) : Str :=
  ((s.dropWhile isSpaceChar).reverse.dropWhile isSpaceChar).reverse

/-- Python `str.lower()` on ASCII content. -/
def toLowerStr (s : Str) : Str := s.map Char.toLower

/-- The decimal digit character for `n < 10`. -/
def digitChar (n : Nat) : Char := Char.ofNat (48 + n)

/-- Decimal rendering of a natural number, as Python string formatting
produces it. -/
def natDigits (n : Nat) : Str :=
  if _h : n < 10 then [digitChar n]
  else natDigits (n / 10) ++ [digitChar (n % 10)]
termination_by n
decreasing_by omega

/-- Numeric value of a decimal digit character. -/
def digitVal (c : Char) : Nat := c.toNat - 48

/-- Decimal parsing of a digit string. -/
def digitsToNat (s : Str) : Nat := s.foldl (fun acc c => acc * 10 + digitVal c) 0

/-- Splits a string at every character satisfying `p`; the separators are
consumed and empty fields are kept, as Python's `re.split` does. -/
def splitOnP (p : Char → Bool) : Str → List Str
  | [] => [[]]
  | c :: rest =>
    if p c then [] :: splitOnP p rest
    else
      match splitOnP p rest with
      | [] => [[c]]
      | s :: ss => (c :: s) :: ss

/-- Splits a string at every occurrence of one separator character. -/
def splitOnChar (sep : Char) : Str → List Str := splitOnP (fun c => c == sep)

/-- Joins fields with a separator character, Python `sep.join`. -/
def joinChar (sep : Char) : List Str → Str
  | [] => []
  | [s] => s
  | s :: s2 :: ss => s ++ sep :: joinChar sep (s2 :: ss)

/-- Splits at the first occurrence of `c`: Python `str.partition` without
the separator component; `none` when `c` does not occur. -/
def partitionFirst (c : Char) (s : Str) : Option (Str × Str) :=
  match s.dropWhile (fun d => !(d == c)) with
  | [] => none
  | _ :: after => some (s.takeWhile (fun d => !(d == c)), after)

/-- Splits at the last occurrence of `c`: Python `str.rpartition` without
the separator component; `none` when `c` does not occur. -/
def rpartition (c : Char) (s : Str) : Option (Str × Str) :=
  let after := s.reverse.takeWhile (fun d => !(d == c))
  if after.length = s.length then none
  else some ((s.reverse.drop (after.length + 1)).reverse, after.reverse)

/-! ## Percent encoding

Modelled from the spec: percent-decoding is applied to every URL component
except the scheme, and `URLBase.quote`/`URLBase.unquote` wrap the standard
percent-coding with a configurable set of safe characters. -/

/-- Uppercase hexadecimal digit character for `n < 16`. -/
def hexDigitChar (n : Nat) : Char :=
  if n < 10 then Char.ofNat (48 + n) else Char.ofNat (55 + n)

/-- Value of a hexadecimal digit character (0 on other input). -/
def hexVal (c : Char) : Nat :=
  if 48 ≤ c.toNat ∧ c.toNat ≤ 57 then c.toNat - 48
  else if 65 ≤ c.toNat ∧ c.toNat ≤ 70 then c.toNat - 55
  else if 97 ≤ c.toNat ∧ c.toNat ≤ 102 then c.toNat - 87
  else 0

/-- Recognises a hexadecimal digit character. -/
def isHexDigitChar (c : Char) : Bool :=
  c.isDigit || (65 ≤ c.toNat && c.toNat ≤ 70) || (97 ≤ c.toNat && c.toNat ≤ 102)

/-- Characters never percent-encoded by Python's `urllib.parse.quote`. -/
def isUnreservedChar (c : Char) : Bool :=
  c.isAlphanum || c == '_' || c == '.' || c == '-' || c == '~'

/-- Modelled from the spec: percent-encoding of one character with a safe
set (`URLBase.quote` keeps safe characters literal). -/
def quoteChar (safe : Str) (c : Char) : Str :=
  if isUnreservedChar c || safe.contains c then [c]
  else ['%', hexDigitChar (c.toNat / 16), hexDigitChar (c.toNat % 16)]

/-- Modelled from the spec: `URLBase.quote` percent-encodes everything
outside the unreserved and safe sets. -/
def quote (safe : Str) (s : Str) : Str := s.flatMap (quoteChar safe)

/-- The percent-decoding walk: the counter skips characters already
consumed by a decoded escape, keeping the recursion structural. -/
def unquoteGo : Nat → Str → Str
  | _, [] => []
  | Nat.succ k, _ :: rest => unquoteGo k rest
  | 0, c :: rest =>
    if c = '%' then
      match rest with
      | x :: y :: _ =>
        if isHexDigitChar x && isHexDigitChar y then
          Char.ofNat (hexVal x * 16 + hexVal y) :: unquoteGo 2 rest
        else c :: unquoteGo 0 rest
      | _ => c :: unquoteGo 0 rest
    else c :: unquoteGo 0 rest

/-- Modelled from the spec: `URLBase.unquote` percent-decodes a string; a
stray `%` not followed by two hexadecimal digits stays literal. -/
def unquote (s : Str) : Str := unquoteGo 0 s

/-! ## The generic URL grammar parser (spec section 4.1)

Modelled from the spec: `NotifyBase.parse_url`/`URLBase.parse_url` split a
URL into scheme, optional authentication, host, optional validated port,
path and query dictionary, percent-decoding every component except the
scheme. -/

/-- The result of the generic URL parse, the `results` dictionary every
plugin refines. -/
structure ParsedURL where
  schema : Str
  user : Option Str
  password : Option Str
  host : Str
  port : Option Nat
  fullpath : Str
  qsd : List (Str × Str)
  secure : Bool
  verify : Bool
deriving DecidableEq

/-- Bool prefix test on embedded strings. -/
def isPrefixOfStr : Str → Str → Bool
  | [], _ => true
  | _ :: _, [] => false
  | a :: as, b :: bs => a == b && isPrefixOfStr as bs

/-- Bool substring test on embedded strings. -/
def containsSub (pat : Str) : Str → Bool
  | [] => pat.isEmpty
  | c :: rest => isPrefixOfStr pat (c :: rest) || containsSub pat rest

/-- Characters allowed in a URL scheme. -/
def isSchemaChar (c : Char) : Bool := c.isAlpha || c.isDigit

/-- Modelled from the spec: scheme extraction (`GET_SCHEMA_RE`), yielding
the lower-cased scheme and the remainder after `://`. -/
def splitSchema (s : Str) : Option (Str × Str) :=
  let sch := s.takeWhile (fun d => !(d == ':'))
  let rest := s.dropWhile (fun d => !(d == ':'))
  if sch ≠ [] ∧ sch.all isSchemaChar ∧ isPrefixOfStr (str "://") rest then
    some (toLowerStr sch, rest.drop 3)
  else none

/-- Modelled from the spec: the port, when present, must be a base-10
integer in `[1, 65535]`, otherwise the parse fails. -/
def parsePort (s : Str) : Option Nat :=
  if s ≠ [] ∧ s.all Char.isDigit then
    let n := digitsToNat s
    if 1 ≤ n ∧ n ≤ 65535 then some n else none
  else none

/-- Modelled from the spec: one `key=value` field of a query string;
duplicate scalar keys keep the last occurrence (realised by `qsdLookup`
reading the rightmost binding). -/
def qsdField (kv : Str) : Option (Str × Str) :=
  if kv = [] then none
  else
    match partitionFirst '=' kv with
    | none => some (toLowerStr (unquote kv), [])
    | some (k, v) => some (toLowerStr (unquote k), unquote v)

/-- Modelled from the spec: the query string becomes a mapping by
splitting on `&` and on the first `=` of each non-empty field,
percent-decoding both sides and lower-casing keys. -/
def parseQsd (q : Str) : List (Str × Str) :=
  (splitOnChar '&' q).filterMap qsdField

/-- Looks a key up in a query-string mapping; the last binding wins, as
with Python dictionary insertion. -/
def qsdLookup : List (Str × Str) → Str → Option Str
  | [], _ => none
  | kv :: rest, k =>
    match qsdLookup rest k with
    | some v => some v
    | none => if kv.1 = k then some kv.2 else none

/-- Modelled from the spec: `utils.parse.parse_bool` maps the usual yes/no
words onto booleans, falling back on the supplied default. -/
def parse_bool (v : Str) (dflt : Bool) : Bool :=
  let w := toLowerStr (strip v)
  if [str "yes", str "y", str "true", str "t", str "on",
      str "1"].contains w then true
  else if [str "no", str "n", str "false", str "f", str "off",
      str "0"].contains w then false
  else dflt

/-- Modelled from the spec: `utils.parse.parse_list` splits a string on
commas and whitespace, dropping empty fields. -/
def parse_list (v : Str) : List Str :=
  (splitOnP (fun c => c == ',' || isSpaceChar c) v).filter
    (fun t => !t.isEmpty)

/-- Modelled from the spec: `URLBase.split_path` splits a path on `/`,
drops empty segments and percent-decodes each segment. -/
def split_path (s : Str) : List Str :=
  ((splitOnChar '/' s).filter (fun t => !t.isEmpty)).map unquote

/-- Modelled from the spec: the host-and-port tail of the authority —
host mandatory and percent-decoded, port validated. -/
def parseHostPort (user password : Option Str) (hostport : Str) :
    Option (Option Str × Option Str × Str × Option Nat) :=
  match rpartition ':' hostport with
  | none =>
    if hostport = [] then none
    else some (user, password, unquote hostport, none)
  | some (h, pstr) =>
    match parsePort pstr with
    | none => none
    | some p =>
      if h = [] then none else some (user, password, unquote h, some p)

/-- Modelled from the spec: the authority part is split at the last `@`
into optional `user[:password]` and `host[:port]`; host is mandatory and
percent-decoded, the port is validated. -/
def parseNetloc (netloc : Str) :
    Option (Option Str × Option Str × Str × Option Nat) :=
  match rpartition '@' netloc with
  | some (a, hostport) =>
    match partitionFirst ':' a with
    | none => parseHostPort (some (unquote a)) none hostport
    | some (u, pw) =>
      parseHostPort (some (unquote u)) (some (unquote pw)) hostport
  | none => parseHostPort none none netloc

/-- Modelled from the spec: the full generic parse — scheme, authority,
path up to `?`, query mapping; `secure` reflects the secure scheme variant
(scheme ending in `s`), `verify` is the certificate-verification query
flag defaulting to true. -/
def parseGeneric (url : Str) : Option ParsedURL :=
  match splitSchema url with
  | none => none
  | some (sch, rest) =>
    let netloc := rest.takeWhile (fun c => !(c == '/') && !(c == '?'))
    let pathq := rest.dropWhile (fun c => !(c == '/') && !(c == '?'))
    match parseNetloc netloc with
    | none => none
    | some (user, password, host, port) =>
      let fullpath := pathq.takeWhile (fun c => !(c == '?'))
      let query :=
        match pathq.dropWhile (fun c => !(c == '?')) with
        | _ :: q => q
        | [] => []
      let qsd := parseQsd query
      some
        { schema := sch, user := user, password := password, host := host,
          port := port, fullpath := fullpath, qsd := qsd,
          secure := sch.getLast? == some 's',
          verify :=
            match qsdLookup qsd (str "verify") with
            | some v => parse_bool v true
            | none => true }

/-! ## The plugin base helpers shared by both notifiers -/

/-- Modelled from the spec: `utils.parse.validate_regex` with its default
pattern — the value is stripped of surrounding whitespace and must keep at
least one character; a missing value fails. -/
def validate_regex : Option Str → Option Str
  | none => none
  | some s =>
    let t := strip s
    if t.isEmpty then none else some t

/-- Modelled from the spec: `URLBase.pprint` — with privacy off the value
is percent-encoded over the given safe set; with privacy on a fixed mask
replaces it. -/
def pprint (content : Str) (privacy : Bool) (safe : Str) : Str :=
  if privacy then str "****" else quote safe content

/-- Modelled from the spec: `url_parameters` — the query parameters every
notifier URL carries, embedded as the certificate-verification flag. -/
def url_parameters (verify : Bool) : List (Str × Str) :=
  [(str "verify", if verify then str "yes" else str "no")]

/-- One rendered `key=value` field of `urlencode`. -/
def encodePair (kv : Str × Str) : Str :=
  quote [] kv.1 ++ '=' :: quote [] kv.2

/-- Modelled from the spec: `URLBase.urlencode` renders a parameter
mapping as percent-encoded `key=value` pairs joined by `&`. -/
def urlencode (params : List (Str × Str)) : Str :=
  joinChar '&' (params.map encodePair)

/-- Python truthiness of an optional string: absent and empty are falsy. -/
def truthy : Option Str → Bool
  | none => false
  | some s => !s.isEmpty

/-! ## The Pushjet plugin (plugins/pushjet.py) -/

/-- The `NotifyPushjet` state: the fields its URL logic reads. -/
structure NotifyPushjet where
  secure : Bool
  user : Option Str
  password : Option Str
  host : Str
  port : Option Nat
  verify_certificate : Bool
  secret_key : Str
deriving DecidableEq

/-- The pushjet default protocol (pushjet.py line 46). -/
def NotifyPushjet.protocol : Str := str "pjet"

/-- The pushjet secure protocol (pushjet.py line 49). -/
def NotifyPushjet.secure_protocol : Str := str "pjets"

/-- The `results` dictionary returned by `NotifyPushjet.parse_url`. -/
structure PushjetResults where
  base : ParsedURL
  secret_key : Option Str
deriving DecidableEq

/-- `NotifyPushjet.parse_url` (pushjet.py lines 255-293): the secret key
is the first path segment (absent path means no key), and a non-empty
`secret` query parameter overrides it after one more percent-decode. -/
def NotifyPushjet.parse_url (url : Str) : Option PushjetResults :=
  match parseGeneric url with
  | none => none
  | some r =>
    let fromPath : Option Str := (split_path r.fullpath).head?
    let secret : Option Str :=
      match qsdLookup r.qsd (str "secret") with
      | some v => if v.isEmpty then fromPath else some (unquote v)
      | none => fromPath
    some { base := r, secret_key := secret }

/-- `NotifyPushjet.__init__` (pushjet.py lines 108-121): the secret key is
validated; an invalid one raises `TypeError`. -/
def NotifyPushjet.init (r : PushjetResults) : Except String NotifyPushjet :=
  match validate_regex r.secret_key with
  | none => .error "An invalid Pushjet Secret Key was specified."
  | some sk =>
    .ok { secure := r.base.secure, user := r.base.user,
          password := r.base.password, host := r.base.host,
          port := r.base.port, verify_certificate := r.base.verify,
          secret_key := sk }

/-- `NotifyPushjet.url_identifier` (pushjet.py lines 123-137). -/
def NotifyPushjet.url_identifier (n : NotifyPushjet) :
    Str × Option Str × Option Str × Str × Option Nat × Str :=
  (if n.secure then NotifyPushjet.secure_protocol else NotifyPushjet.protocol,
    n.user, n.password, n.host, n.port, n.secret_key)

/-- `NotifyPushjet.url` (pushjet.py lines 139-171): authentication is
emitted only when user and password are both truthy, the port is omitted
when it matches the scheme default, and the secret key is the single path
segment. -/
def NotifyPushjet.url (n : NotifyPushjet) (privacy : Bool) : Str :=
  let params := url_parameters n.verify_certificate
  let default_port : Nat := if n.secure then 443 else 80
  let auth : Str :=
    if truthy n.user && truthy n.password then
      quote [] (n.user.getD []) ++
        ':' :: pprint (n.password.getD []) privacy [] ++ [('@' : Char)]
    else []
  (if n.secure then NotifyPushjet.secure_protocol
    else NotifyPushjet.protocol) ++
    str "://" ++ auth ++ n.host ++
    (match n.port with
     | none => []
     | some p => if p = default_port then [] else ':' :: natDigits p) ++
    '/' :: pprint n.secret_key privacy [] ++
    str "/?" ++ urlencode params

/-! ## The Mattermost plugin (plugins/mattermost.py) -/

/-- The `NotifyMattermost` state: the fields its URL logic reads. -/
structure NotifyMattermost where
  secure : Bool
  user : Option Str
  host : Str
  port : Option Nat
  verify_certificate : Bool
  fullpath : Str
  token : Str
  channels : List Str
  include_image : Bool
deriving DecidableEq

/-- The mattermost default protocol (mattermost.py line 63). -/
def NotifyMattermost.protocol : Str := str "mmost"

/-- The mattermost secure protocol (mattermost.py line 66). -/
def NotifyMattermost.secure_protocol : Str := str "mmosts"

/-- The `results` dictionary returned by `NotifyMattermost.parse_url`. -/
structure MattermostResults where
  base : ParsedURL
  token : Option Str
  fullpath : Str
  channels : List Str
  include_image : Bool
deriving DecidableEq

/-- `NotifyMattermost.parse_url` (mattermost.py lines 377-426): the last
path segment is the token, the segments before it rebuild the path, the
channel list collects the `to`, `channel` and `channels` query parameters
in that order, and `image` feeds `include_image`, defaulting to the
template default (true). -/
def NotifyMattermost.parse_url (url : Str) : Option MattermostResults :=
  match parseGeneric url with
  | none => none
  | some r =>
    let tokens := split_path r.fullpath
    let token := tokens.getLast?
    let tokens2 := tokens.dropLast
    let fullpath : Str :=
      if tokens2.isEmpty then [] else '/' :: joinChar '/' tokens2
    let fromKey : Str → List Str := fun k =>
      match qsdLookup r.qsd k with
      | some v => if v.isEmpty then [] else parse_list v
      | none => []
    some { base := r, token := token, fullpath := fullpath,
           channels := fromKey (str "to") ++ fromKey (str "channel") ++
             fromKey (str "channels"),
           include_image :=
             match qsdLookup r.qsd (str "image") with
             | some v => parse_bool v false
             | none => true }

/-- `NotifyMattermost.__init__` (mattermost.py lines 148-186): the path is
stripped, the token validated (`TypeError` otherwise), each channel loses
a leading `#` prefix after list re-parsing. -/
def NotifyMattermost.init (r : MattermostResults) :
    Except String NotifyMattermost :=
  match validate_regex r.token with
  | none => .error "An invalid Mattermost Authorization Token was specified."
  | some tk =>
    .ok { secure := r.base.secure, user := r.base.user, host := r.base.host,
          port := r.base.port, verify_certificate := r.base.verify,
          fullpath := strip r.fullpath, token := tk,
          channels := (r.channels.flatMap parse_list).map
            (fun c => c.dropWhile (fun d => d == '#')),
          include_image := r.include_image }

/-- `NotifyMattermost.url_identifier` (mattermost.py lines 308-321). -/
def NotifyMattermost.url_identifier (n : NotifyMattermost) :
    Str × Str × Str × Option Nat × Str :=
  (if n.secure then NotifyMattermost.secure_protocol
    else NotifyMattermost.protocol, n.token, n.host, n.port, n.fullpath)

/-- `NotifyMattermost.url` (mattermost.py lines 323-375): the parameters
carry the image flag, the common parameters and (when configured) the
comma-joined channel list; a truthy botname is emitted before the host,
the port is omitted at the scheme default, the path is re-quoted keeping
`/` safe and is followed by the token. -/
def NotifyMattermost.url (n : NotifyMattermost) (privacy : Bool) : Str :=
  let params : List (Str × Str) :=
    ([(str "image", if n.include_image then str "yes" else str "no")] ++
      url_parameters n.verify_certificate) ++
      (if n.channels.isEmpty then []
       else [(str "channel",
         joinChar ',' (n.channels.map (fun c => quote [] c)))])
  let default_port : Nat := if n.secure then 443 else 80
  let botname : Str :=
    if truthy n.user then quote [] (n.user.getD []) ++ [('@' : Char)]
    else []
  (if n.secure then NotifyMattermost.secure_protocol
    else NotifyMattermost.protocol) ++ str "://" ++ botname ++ n.host ++
    (match n.port with
     | none => []
     | some p => if p = default_port then [] else ':' :: natDigits p) ++
    (if n.fullpath.isEmpty then [('/' : Char)]
     else quote [('/' : Char)] n.fullpath ++ [('/' : Char)]) ++
    pprint n.token privacy [] ++ str "/?" ++ urlencode params

/-- One pass of the `while len(channels)` loop of `NotifyMattermost.send`
(mattermost.py lines 230-303): the payload keeps its previous `channel`
field when the popped channel is falsy, each HTTP post outcome is read
from the `post` oracle indexed by attempt number, and a failed post only
flags the error before the loop continues. -/
def NotifyMattermost.sendLoop (post : Nat → Bool) :
    List (Option Str) → Option Str → Nat → List (Option Str) × Bool
  | [], _, _ => ([], true)
  | ch :: rest, payloadCh, k =>
    let pc : Option Str :=
      match ch with
      | some c => if c.isEmpty then payloadCh else some c
      | none => payloadCh
    let ok := post k
    let r := NotifyMattermost.sendLoop post rest pc (k + 1)
    (pc :: r.1, ok && r.2)

/-- `NotifyMattermost.send` (mattermost.py lines 188-306) with the HTTP
transport abstracted as an oracle: one post per configured channel (a
single dummy entry when none are configured), returning the payload
channel field of every attempted post and the overall status. -/
def NotifyMattermost.send (n : NotifyMattermost) (post : Nat → Bool) :
    List (Option Str) × Bool :=
  let channels : List (Option Str) :=
    if n.channels.isEmpty then [none] else n.channels.map some
  NotifyMattermost.sendLoop post channels none 0

/-! ## Notifier instantiation (spec section 4.3) -/

/-- A constructed notifier of one of the two embedded backends. -/
inductive Notifier
  | pushjet (n : NotifyPushjet)
  | mattermost (n : NotifyMattermost)
deriving DecidableEq

/-- A URL identifier, tagged by the backend that produced it. -/
inductive UrlId
  | pj (t : Str × Option Str × Option Str × Str × Option Nat × Str)
  | mm (t : Str × Str × Str × Option Nat × Str)
deriving DecidableEq

/-- The `url_identifier` of a constructed notifier. -/
def Notifier.url_identifier : Notifier → UrlId
  | .pushjet n => .pj n.url_identifier
  | .mattermost n => .mm n.url_identifier

/-- The `url()` of a constructed notifier. -/
def Notifier.url (privacy : Bool) : Notifier → Str
  | .pushjet n => n.url privacy
  | .mattermost n => n.url privacy

/-- Modelled from the spec: the notifier instantiation path (section 4.3)
over the two embedded backends — extract the scheme, reject unregistered
ones, run the matching plugin's own `parse_url`, then construct the
instance with constructor exceptions suppressed into a `none` result. -/
def instantiateNotifier (url : Str) : Option Notifier :=
  match splitSchema url with
  | none => none
  | some (sch, _) =>
    if sch = NotifyPushjet.protocol ∨ sch = NotifyPushjet.secure_protocol then
      match NotifyPushjet.parse_url url with
      | none => none
      | some r =>
        match NotifyPushjet.init r with
        | .ok n => some (.pushjet n)
        | .error _ => none
    else if sch = NotifyMattermost.protocol ∨
        sch = NotifyMattermost.secure_protocol then
      match NotifyMattermost.parse_url url with
      | none => none
      | some r =>
        match NotifyMattermost.init r with
        | .ok n => some (.mattermost n)
        | .error _ => none
    else none

/-! ## Configuration plugins and the aggregator operations -/

/-- A cache policy value: a boolean flag or a TTL in seconds. -/
inductive CacheVal
  | flag (b : Bool)
  | secs (n : Nat)
deriving DecidableEq

/-- An asset object reference: the library default or a caller-supplied
one. -/
inductive Asset
  | standard
  | custom (id : Nat)
deriving DecidableEq

/-- Modelled from the spec: `common.CONFIG_FORMATS`, the supported
configuration formats. -/
def CONFIG_FORMATS : List Str := [str "text", str "yaml"]

/-- Modelled from the spec: the configuration-manager registry `C_MGR` —
the schemes with a registered configuration loader. -/
def C_MGR_SCHEMAS : List Str :=
  [str "file", str "http", str "https", str "memory"]

/-- The constructor-argument mapping (`results`) that
`AppriseConfig.instantiate` builds from the parse results and the
overrides; `cache := none` embeds an absent dictionary key. -/
structure ConfigArgs where
  schema : Str
  host : Str
  port : Option Nat
  fullpath : Str
  format : Option Str
  tag : List Str
  asset : Asset
  cache : Option CacheVal
  recursion : Int
  insecure_includes : Bool
deriving DecidableEq

/-- Modelled from the spec: `ConfigBase.parse_url` — the generic parse of
a configuration URL plus the expected-format query parameter.  The cache,
recursion and insecure-includes settings are never read from the URL
(the security boundary of section 4.3), so their entries stay at the
pre-merge defaults: `cache` absent, recursion zero, insecure includes
off, no tags. -/
def ConfigBase.parse_url (url : Str) : Option ConfigArgs :=
  match parseGeneric url with
  | none => none
  | some r =>
    some { schema := r.schema, host := r.host, port := r.port,
           fullpath := r.fullpath,
           format := qsdLookup r.qsd (str "format"),
           tag := [], asset := .standard, cache := none, recursion := 0,
           insecure_includes := false }

/-- A constructed configuration plugin instance. -/
structure ConfigInstance where
  schema : Str
  origin : Str
  tag : List Str
  asset : Asset
  cache : CacheVal
  recursion : Int
  insecure_includes : Bool
  config_format : Option Str
deriving DecidableEq

/-- Modelled from the spec: the configuration-plugin constructor — an
explicitly supplied format outside the supported set is a
`ConstructorRejected` (`TypeError`) failure; the cache policy defaults to
always-cached when no cache argument was supplied. -/
def ConfigBase.construct (args : ConfigArgs) : Except String ConfigInstance :=
  match args.format with
  | some f =>
    if CONFIG_FORMATS.contains (toLowerStr f) then
      .ok { schema := args.schema, origin := args.host, tag := args.tag,
            asset := args.asset, cache := args.cache.getD (.flag true),
            recursion := args.recursion,
            insecure_includes := args.insecure_includes,
            config_format := some (toLowerStr f) }
    else .error "An invalid config format was specified."
  | none =>
    .ok { schema := args.schema, origin := args.host, tag := args.tag,
          asset := args.asset, cache := args.cache.getD (.flag true),
          recursion := args.recursion,
          insecure_includes := args.insecure_includes,
          config_format := none }

/-- The argument-merging phase of `AppriseConfig.instantiate`
(apprise_config.py lines 377-419): scheme extraction with the file-scheme
fallback, the registry membership check, the plugin's own `parse_url`,
then the override merge — the tag list, the asset, the cache value only
when one was supplied, and the recursion and insecure-includes values
unconditionally. -/
def AppriseConfig.instantiateArgs (url : Str) (asset : Option Asset)
    (tag : Option Str) (cache : Option CacheVal) (recursion : Int)
    (insecure_includes : Bool) : Option ConfigArgs :=
  let schemaUrl : Option (Str × Str) :=
    match splitSchema url with
    | none => some (str "file", str "file://" ++ quote [('/' : Char)] url)
    | some (sch, _) =>
      if C_MGR_SCHEMAS.contains sch then some (sch, url) else none
  match schemaUrl with
  | none => none
  | some (_, url2) =>
    match ConfigBase.parse_url url2 with
    | none => none
    | some results =>
      some { results with
        tag := (tag.map parse_list).getD [],
        asset := asset.getD .standard,
        cache :=
          match cache with
          | some cv => some cv
          | none => results.cache,
        recursion := recursion,
        insecure_includes := insecure_includes }

/-- `AppriseConfig.instantiate` (apprise_config.py lines 362-437): `none`
stands for the logged-warning-and-discard outcome (unregistered scheme or
unparseable URL); with exception suppression a constructor failure also
becomes `none`, otherwise it propagates as an `Except.error`. -/
def AppriseConfig.instantiate (url : Str) (asset : Option Asset)
    (tag : Option Str) (cache : Option CacheVal) (recursion : Int)
    (insecure_includes : Bool) (suppress_exceptions : Bool) :
    Except String (Option ConfigInstance) :=
  match AppriseConfig.instantiateArgs url asset tag cache recursion
      insecure_includes with
  | none => .ok none
  | some args =>
    if suppress_exceptions then
      match ConfigBase.construct args with
      | .ok inst => .ok (some inst)
      | .error _ => .ok none
    else
      (ConfigBase.construct args).map some

/-- A configuration line that looks like a structured-document key. -/
def isYamlKeyLine (l : Str) : Bool :=
  isPrefixOfStr (str "urls:") l || isPrefixOfStr (str "version:") l ||
    isPrefixOfStr (str "include:") l

/-- Modelled from the spec: configuration format auto-detection — a
document among whose lines is a `urls:`/`version:`/`include:` key is the
structured (yaml) format; otherwise the first non-blank line must be a
comment or contain a URL for the line-oriented (text) format; anything
else is undetectable. -/
def detectFormat (content : Str) : Option Str :=
  let lines := (splitOnChar '\n' content).map strip
  if lines.any isYamlKeyLine then some (str "yaml")
  else
    match lines.filter (fun l => !l.isEmpty) with
    | [] => none
    | l :: _ =>
      if l.head? == some '#' || containsSub (str "://") l then
        some (str "text")
      else none

/-- Modelled from the spec: the in-memory configuration source
constructor (`C_MGR["memory"]`) — an explicitly supplied format outside
the supported set raises `TypeError`; otherwise the stored format is the
explicit one or the auto-detected one. -/
def ConfigMemory.construct (content : Str) (format : Option Str)
    (tag : List Str) (asset : Asset) (recursion : Int)
    (insecure_includes : Bool) : Except String ConfigInstance :=
  match format with
  | some f =>
    if CONFIG_FORMATS.contains (toLowerStr f) then
      .ok { schema := str "memory", origin := content, tag := tag,
            asset := asset, cache := .flag true, recursion := recursion,
            insecure_includes := insecure_includes,
            config_format := some (toLowerStr f) }
    else .error "An invalid config format was specified."
  | none =>
    .ok { schema := str "memory", origin := content, tag := tag,
          asset := asset, cache := .flag true, recursion := recursion,
          insecure_includes := insecure_includes,
          config_format := detectFormat content }

/-- The aggregator state: the owned configuration instances and the
stored defaults. -/
structure AppriseConfigState where
  configs : List ConfigInstance
  asset : Asset
  cache : CacheVal
  recursion : Int
  insecure_includes : Bool
deriving DecidableEq

/-- `AppriseConfig.add_config` (apprise_config.py lines 242-310): wraps
raw text as an in-memory source; when the constructed source carries no
recognised configuration format the call reports failure and appends
nothing, otherwise exactly the one new source is appended and the call
succeeds.  A raised constructor error propagates. -/
def AppriseConfig.add_config (s : AppriseConfigState) (content : Str)
    (asset : Option Asset) (tag : Option Str) (format : Option Str)
    (recursion : Option Int) (insecure_includes : Option Bool) :
    Except String (Bool × AppriseConfigState) :=
  match ConfigMemory.construct content format ((tag.map parse_list).getD [])
      (asset.getD s.asset) (recursion.getD s.recursion)
      (insecure_includes.getD s.insecure_includes) with
  | .error e => .error e
  | .ok inst =>
    if (inst.config_format.map (fun f => CONFIG_FORMATS.contains f)).getD
        false then
      .ok (true, { s with configs := s.configs ++ [inst] })
    else .ok (false, s)

/-- One element handed to `AppriseConfig.add`: an already-built source, a
URL string, or a value of invalid type. -/
inductive AddEntry
  | built (c : ConfigInstance)
  | url (u : Str)
  | invalid
deriving DecidableEq

/-- The per-element loop of `AppriseConfig.add` (apprise_config.py lines
204-240): built instances are appended directly, strings are instantiated
with exceptions suppressed and appended on success, and a failing element
only clears the return status before processing continues. -/
def AppriseConfig.addGo (asset : Asset) (tag : Option Str) (cache : CacheVal)
    (recursion : Int) (insecure_includes : Bool) :
    List AddEntry → Bool × List ConfigInstance
  | [] => (true, [])
  | e :: rest =>
    let r := AppriseConfig.addGo asset tag cache recursion
      insecure_includes rest
    match e with
    | .built c => (r.1, c :: r.2)
    | .invalid => (false, r.2)
    | .url u =>
      match AppriseConfig.instantiate u (some asset) tag (some cache)
          recursion insecure_includes true with
      | .ok (some inst) => (r.1, inst :: r.2)
      | _ => (false, r.2)

/-- `AppriseConfig.add` (apprise_config.py lines 133-240) in its list
input form: the stored defaults resolve the omitted overrides, then every
element is processed in order and the new sources are appended. -/
def AppriseConfig.add (s : AppriseConfigState) (entries : List AddEntry)
    (asset : Option Asset) (tag : Option Str) (cache : Option CacheVal)
    (recursion : Option Int) (insecure_includes : Option Bool) :
    Bool × AppriseConfigState :=
  let r := AppriseConfig.addGo (asset.getD s.asset) tag (cache.getD s.cache)
    (recursion.getD s.recursion) (insecure_includes.getD s.insecure_includes)
    entries
  (r.1, { s with configs := s.configs ++ r.2 })

/-- The contribution of one `add` element under resolved overrides: the
configuration instance it appends, when any. -/
def addEntryInstance (asset : Asset) (tag : Option Str) (cache : CacheVal)
    (recursion : Int) (insecure_includes : Bool) :
    AddEntry → Option ConfigInstance
  | .built c => some c
  | .invalid => none
  | .url u =>
    match AppriseConfig.instantiate u (some asset) tag (some cache) recursion
        insecure_includes true with
    | .ok v => v
    | .error _ => none

/-! ## Canonical-state predicates for the URL round trip

The round-trip theorem quantifies over notifier states; these predicates
carve out the canonical states that URL-based construction produces:
a hostname over hostname characters, decimal ports in range, stripped
non-empty secrets/tokens, byte-valued (below 256) encoded components and
slash-separated path segments. -/

/-- Every character is a byte (percent-encoding is byte-based). -/
def asciiOk (s : Str) : Bool := s.all (fun c => decide (c.toNat < 256))

/-- A hostname character: letters, digits, dots and dashes. -/
def hostChar (c : Char) : Bool := c.isAlphanum || c == '.' || c == '-'

/-- A well-formed hostname. -/
def hostOk (h : Str) : Bool := !h.isEmpty && h.all hostChar

/-- A stored secret key or token: stripped, non-empty, byte-valued. -/
def tokenOk (t : Str) : Bool := !t.isEmpty && asciiOk t && strip t == t

/-- A well-formed path segment: non-empty, byte-valued, free of slashes
and whitespace. -/
def segOk (t : Str) : Bool :=
  !t.isEmpty && asciiOk t &&
    t.all (fun c => !(c == '/') && !(isSpaceChar c))

/-- The path a list of segments renders to (`/a/b` style; empty for no
segments). -/
def renderPath (segs : List Str) : Str := segs.flatMap (fun t => '/' :: t)

/-- The port fragment of a rendered URL. -/
def portRender : Option Nat → Str
  | none => []
  | some p => ':' :: natDigits p

/-- Credentials as the URL emitters can reproduce them: both absent, or
both non-empty byte strings. -/
def authOk (user password : Option Str) : Bool :=
  match user, password with
  | none, none => true
  | some u, some p => !u.isEmpty && !p.isEmpty && asciiOk u && asciiOk p
  | _, _ => false

/-- A port the URL emitters can reproduce: absent, or in range and
different from the scheme default. -/
def portOk (port : Option Nat) (secure : Bool) : Bool :=
  match port with
  | none => true
  | some p =>
    decide (1 ≤ p) && decide (p ≤ 65535) &&
      decide (p ≠ (if secure then 443 else 80))

/-- The canonical notifier states over which the amended round trip is
proved: the counterexamples force exactly the credential (both-or-none)
and non-default-port restrictions; the remaining conditions state that
the components are the URL-derived canonical ones. -/
def NotifierWF : Notifier → Prop
  | .pushjet n =>
    hostOk n.host = true ∧ authOk n.user n.password = true ∧
      portOk n.port n.secure = true ∧ tokenOk n.secret_key = true
  | .mattermost n =>
    hostOk n.host = true ∧
      (n.user = none ∨ ∃ u, n.user = some u ∧ asciiOk u = true) ∧
      portOk n.port n.secure = true ∧ tokenOk n.token = true ∧
      ∃ segs, n.fullpath = renderPath segs ∧ ∀ t ∈ segs, segOk t = true

/-- The authentication fragment a pushjet URL emits under the
both-or-none credential discipline. -/
def pushjetAuth (n : NotifyPushjet) : Str :=
  match n.user, n.password with
  | some u, some p => quote [] u ++ ':' :: quote [] p ++ [('@' : Char)]
  | _, _ => []

/-- The botname fragment a mattermost URL emits (for a truthy user
only). -/
def mmAuth (n : NotifyMattermost) : Str :=
  match n.user with
  | some u => if u.isEmpty then [] else quote [] u ++ [('@' : Char)]
  | none => []

/-- The query parameters a mattermost URL carries. -/
def mmParams (n : NotifyMattermost) : List (Str × Str) :=
  ([(str "image", if n.include_image then str "yes" else str "no")] ++
    url_parameters n.verify_certificate) ++
    (if n.channels.isEmpty then []
     else [(str "channel",
       joinChar ',' (n.channels.map (fun c => quote [] c)))])

/-- The notifier constructed from `pjet://u@h/s`: a user with no
password. -/
def cexPushjet : NotifyPushjet :=
  { secure := false, user := some (str "u"), password := none,
    host := str "h", port := none, verify_certificate := true,
    secret_key := str "s" }

/-! ## Concrete fixtures used by closed witness statements -/

/-- The argument mapping produced for `http://host/?cache=no` (and for
`http://host/?cache=yes`) under overrides `recursion = 2`,
`insecure_includes = true`, no cache override. -/
def cfgArgsDemo : ConfigArgs :=
  { schema := str "http", host := str "host", port := none,
    fullpath := str "/", format := none, tag := [], asset := .standard,
    cache := none, recursion := 2, insecure_includes := true }

/-- The argument mapping produced for `http://host/?format=xml` under
default overrides. -/
def cfgArgsXml : ConfigArgs :=
  { schema := str "http", host := str "host", port := none,
    fullpath := str "/", format := some (str "xml"), tag := [],
    asset := .standard, cache := none, recursion := 0,
    insecure_includes := false }

/-- A mattermost notifier with no configured channels. -/
def demoMattermost : NotifyMattermost :=
  { secure := false, user := none, host := str "host", port := none,
    verify_certificate := true, fullpath := [], token := str "tok",
    channels := [], include_image := false }

/-- The generic parse of `pjet://h/p/?secret=abc`. -/
def pjetParsedA : ParsedURL :=
  { schema := str "pjet", user := none, password := none, host := str "h",
    port := none, fullpath := str "/p/", qsd := [(str "secret", str "abc")],
    secure := false, verify := true }

/-- The generic parse of `pjet://h`. -/
def pjetParsedB : ParsedURL :=
  { schema := str "pjet", user := none, password := none, host := str "h",
    port := none, fullpath := [], qsd := [], secure := false,
    verify := true }

/-! ## Theorems -/

/-- Python indexing with an in-range natural index is the identity. -/
theorem pyIndex_natCast (len j : Nat) (h : j < len) :
    pyIndex len (j : Int) = some j := by
  simp only [pyIndex]
  rw [if_neg (show ¬ ((j : Int) < 0) by omega),
    if_pos (show (0 : Int) ≤ (j : Int) ∧ (j : Int) < (len : Int) from
      ⟨by omega, by omega⟩)]
  simp

/-- The `server_pop` walk started with running offset `c - 1` behaves like
the specification walk on the index translated by the `c` notifiers
already passed. -/
theorem serverPopGo_eq_flatPopSpec {α : Type} (configs : List (ConfigSource α)) :
    ∀ (c i : Nat), c ≤ i →
      AppriseConfig.serverPopGo (i : Int) ((c : Int) - 1) configs =
        flatPopSpec configs (i - c) := by
  induction configs with
  | nil => intro c i _; rfl
  | cons e rest ih =>
    intro c i hci
    simp only [AppriseConfig.serverPopGo, flatPopSpec, ConfigSource.servers]
    by_cases hn : e.serverList.length > 0
    · rw [if_pos hn]
      by_cases hoff : ((c : Int) - 1 + e.serverList.length ≥ (i : Int))
      · rw [if_pos hoff]
        have hloc :
            (if ((c : Int) - 1 = -1) then (i : Int)
              else (i : Int) - ((c : Int) - 1) - 1) = ((i - c : Nat) : Int) := by
          by_cases hc : c = 0
          · subst hc; simp
          · rw [if_neg (by omega)]; omega
        have hic : i - c < e.serverList.length := by omega
        rw [hloc]
        simp only [ConfigSource.pop]
        rw [pyIndex_natCast _ _ hic]
        cases hget : e.serverList[i - c]? with
        | none => rw [List.getElem?_eq_none_iff] at hget; omega
        | some x => simp [hget]
      · rw [if_neg hoff]
        have hge : e.serverList.length ≤ i - c := by omega
        rw [List.getElem?_eq_none hge]
        have hcast : (c : Int) - 1 + (e.serverList.length : Int) =
            ((c + e.serverList.length : Nat) : Int) - 1 := by push_cast; ring
        rw [hcast, ih (c + e.serverList.length) i (by omega),
          show i - c - e.serverList.length = i - (c + e.serverList.length) by omega]
    · rw [if_neg hn]
      have he : e.serverList = [] := List.length_eq_zero.mp (by omega)
      rw [he]
      simp only [List.getElem?_nil, List.length_nil, Nat.sub_zero]
      rw [ih c i hci]

/-- The specification walk raises the `IndexError` exactly on indices at or
beyond the total notifier count. -/
theorem flatPopSpec_error_iff {α : Type} (configs : List (ConfigSource α))
    (i : Nat) :
    (flatPopSpec configs i = Except.error "list index out of range" ↔
      (flatServers configs).length ≤ i) := by
  induction configs generalizing i with
  | nil => simp [flatPopSpec, flatServers]
  | cons e rest ih =>
    simp only [flatPopSpec, flatServers, List.map_cons, List.flatten_cons,
      List.length_append, ConfigSource.servers]
    cases hx : e.serverList[i]? with
    | some x =>
      have hlt : i < e.serverList.length := by
        by_contra h
        rw [List.getElem?_eq_none (Nat.le_of_not_lt h)] at hx
        exact Option.noConfusion hx
      constructor
      · intro h; exact Except.noConfusion h
      · intro h; exact absurd h (by omega)
    | none =>
      have hlen : e.serverList.length ≤ i := List.getElem?_eq_none_iff.mp hx
      have ihur := ih (i - e.serverList.length)
      cases hr : flatPopSpec rest (i - e.serverList.length) with
      | ok p =>
        rw [hr] at ihur
        have h3 : ¬ ((flatServers rest).length ≤ i - e.serverList.length) :=
          fun hc => Except.noConfusion (ihur.mpr hc)
        simp only [flatServers] at h3
        constructor
        · intro h; exact Except.noConfusion h
        · intro h
          exact absurd
            (by omega :
              (rest.map ConfigSource.servers).flatten.length ≤
                i - e.serverList.length) h3
      | error msg =>
        rw [hr] at ihur
        constructor
        · intro h
          simp only [Except.error.injEq] at h
          have h2 := ihur.mp (by rw [h])
          simp only [flatServers] at h2
          omega
        · intro h
          have h2 : (flatServers rest).length ≤ i - e.serverList.length := by
            simp only [flatServers]
            omega
          exact ihur.mpr h2

/-- C2: flattened-index removal.  `server_pop i` behaves exactly like the
specification walk `flatPopSpec`: an index below the first source's
notifier count pops that local index from the first source, otherwise the
count is subtracted and the walk continues with the next source; and the
walk yields the `IndexError` exactly when the index is at least the total
number of notifiers across all sources. -/
theorem server_pop_flattened_index {α : Type} (configs : List (ConfigSource α))
    (i : Nat) :
    AppriseConfig.server_pop configs (i : Int) = flatPopSpec configs i ∧
    (flatPopSpec configs i = Except.error "list index out of range" ↔
      (flatServers configs).length ≤ i) := by
  refine ⟨?_, flatPopSpec_error_iff configs i⟩
  have h := serverPopGo_eq_flatPopSpec configs 0 i (Nat.zero_le i)
  simpa [AppriseConfig.server_pop] using h

/-- C8: `servers(tag, match_always)` equals the concatenation, in config
source insertion order, of the server lists of exactly those sources whose
tag sets satisfy the exclusive-match predicate; being a pure function of
the current config list, it is recomputed from that list at every call. -/
theorem servers_filter_concat {α : Type} (configs : List (ConfigSource α))
    (logic : List TagElem) (match_always : Bool) :
    AppriseConfig.servers configs logic match_always =
      ((configs.filter fun e =>
          is_exclusive_match logic e.tags MATCH_ALL_TAG
            (if match_always then some MATCH_ALWAYS_TAG else none)).map
        ConfigSource.servers).flatten := by
  simp only [AppriseConfig.servers]
  induction configs with
  | nil => rfl
  | cons e rest ih =>
    simp only [AppriseConfig.serversGo, List.filter_cons]
    cases h : is_exclusive_match logic e.tags MATCH_ALL_TAG
        (if match_always then some MATCH_ALWAYS_TAG else none) with
    | true => simp [h, ih]
    | false => simp [h, ih]

/-- The config-plugin URL parse never yields cache, recursion or
insecure-includes values from the URL. -/
theorem configBase_parse_url_defaults (url : Str) (r : ConfigArgs)
    (h : ConfigBase.parse_url url = some r) :
    r.cache = none ∧ r.recursion = 0 ∧ r.insecure_includes = false := by
  unfold ConfigBase.parse_url at h
  split at h
  · exact Option.noConfusion h
  · injection h with h2
    subst h2
    exact ⟨rfl, rfl, rfl⟩

/-- Any successful argument merge carries exactly the supplied override
cache, recursion and insecure-includes values. -/
theorem instantiateArgs_override_fields (url : Str) (asset : Option Asset)
    (tag : Option Str) (cache : Option CacheVal) (recursion : Int)
    (insecure : Bool) (args : ConfigArgs)
    (h : AppriseConfig.instantiateArgs url asset tag cache recursion
      insecure = some args) :
    args.cache = cache ∧ args.recursion = recursion ∧
      args.insecure_includes = insecure := by
  simp only [AppriseConfig.instantiateArgs] at h
  split at h
  · exact Option.noConfusion h
  · split at h
    · exact Option.noConfusion h
    · rename_i results heq
      injection h with h2
      subst h2
      have hdef := configBase_parse_url_defaults _ _ heq
      refine ⟨?_, rfl, rfl⟩
      cases cache with
      | some cv => rfl
      | none => exact hdef.1

/-- C3: the security boundary of `instantiate` — under equal override
arguments, any two successfully parsed URLs (in particular two differing
only in URL-embedded cache/recursion/insecure-includes query values)
yield constructor argument mappings whose cache, recursion and
insecure-includes entries agree and come from the overrides alone. -/
theorem instantiate_security_boundary (u1 u2 : Str) (asset : Option Asset)
    (tag : Option Str) (cache : Option CacheVal) (recursion : Int)
    (insecure : Bool) (r1 r2 : ConfigArgs)
    (h1 : AppriseConfig.instantiateArgs u1 asset tag cache recursion
      insecure = some r1)
    (h2 : AppriseConfig.instantiateArgs u2 asset tag cache recursion
      insecure = some r2) :
    r1.cache = r2.cache ∧ r1.recursion = r2.recursion ∧
      r1.insecure_includes = r2.insecure_includes ∧ r1.cache = cache ∧
      r1.recursion = recursion ∧ r1.insecure_includes = insecure := by
  obtain ⟨a1, b1, c1⟩ := instantiateArgs_override_fields _ _ _ _ _ _ _ h1
  obtain ⟨a2, b2, c2⟩ := instantiateArgs_override_fields _ _ _ _ _ _ _ h2
  exact ⟨by rw [a1, a2], by rw [b1, b2], by rw [c1, c2], a1, b1, c1⟩

/-- Closed instance of the security boundary: `http://host/?cache=no` and
`http://host/?cache=yes` produce the same (override-determined) cache,
recursion and insecure-includes constructor arguments. -/
theorem instantiate_security_boundary_witness :
    cfgArgsDemo.cache = none ∧ cfgArgsDemo.recursion = 2 ∧
      cfgArgsDemo.insecure_includes = true := by
  have h := instantiate_security_boundary (str "http://host/?cache=no")
    (str "http://host/?cache=yes") none none none 2 true cfgArgsDemo
    cfgArgsDemo (by decide) (by decide)
  exact ⟨h.2.2.2.1, h.2.2.2.2.1, h.2.2.2.2.2⟩

/-- C4: a URL whose extracted scheme has no registered configuration
loader makes `instantiate` return the logged-warning `none` outcome — an
`ok` value, never a raised exception — in either exception-suppression
mode. -/
theorem instantiate_unregistered_scheme (url sch rest : Str)
    (asset : Option Asset) (tag : Option Str) (cache : Option CacheVal)
    (recursion : Int) (insecure : Bool) (suppress : Bool)
    (hs : splitSchema url = some (sch, rest))
    (hreg : C_MGR_SCHEMAS.contains sch = false) :
    AppriseConfig.instantiate url asset tag cache recursion insecure
      suppress = .ok none := by
  have hmem : ¬ sch ∈ C_MGR_SCHEMAS := by simpa using hreg
  unfold AppriseConfig.instantiate AppriseConfig.instantiateArgs
  simp [hs, hmem]

/-- Closed instance: the unregistered scheme `foo://bar` is discarded as
`none` with and without exception suppression. -/
theorem instantiate_unregistered_scheme_witness :
    AppriseConfig.instantiate (str "foo://bar") none none none 0 false
      true = .ok none ∧
    AppriseConfig.instantiate (str "foo://bar") none none none 0 false
      false = .ok none := by
  constructor
  · exact instantiate_unregistered_scheme (str "foo://bar") (str "foo")
      (str "bar") none none none 0 false true (by decide) (by decide)
  · exact instantiate_unregistered_scheme (str "foo://bar") (str "foo")
      (str "bar") none none none 0 false false (by decide) (by decide)

/-- C7: exception handling of `instantiate` — when the plugin constructor
raises, the suppressing mode converts the failure into the
logged-and-discarded `none` result while the non-suppressing mode
propagates the same exception to the caller. -/
theorem instantiate_exception_suppression (url : Str) (asset : Option Asset)
    (tag : Option Str) (cache : Option CacheVal) (recursion : Int)
    (insecure : Bool) (args : ConfigArgs) (e : String)
    (hargs : AppriseConfig.instantiateArgs url asset tag cache recursion
      insecure = some args)
    (herr : ConfigBase.construct args = .error e) :
    AppriseConfig.instantiate url asset tag cache recursion insecure true =
      .ok none ∧
    AppriseConfig.instantiate url asset tag cache recursion insecure false =
      .error e := by
  unfold AppriseConfig.instantiate
  rw [hargs]
  simp [herr, Except.map]

/-- Closed instance: the constructor rejection raised for
`http://host/?format=xml` is suppressed to `none` or propagated. -/
theorem instantiate_exception_suppression_witness :
    AppriseConfig.instantiate (str "http://host/?format=xml") none none none
      0 false true = .ok none ∧
    AppriseConfig.instantiate (str "http://host/?format=xml") none none none
      0 false false =
      .error "An invalid config format was specified." := by
  exact instantiate_exception_suppression (str "http://host/?format=xml")
    none none none 0 false cfgArgsXml
    "An invalid config format was specified." (by decide) rfl

/-- The `add` loop is the per-element fold of `addEntryInstance`: the
status is the conjunction of element successes and the appended list
collects the successful instances in order. -/
theorem addGo_spec (asset : Asset) (tag : Option Str) (cache : CacheVal)
    (recursion : Int) (insecure : Bool) (entries : List AddEntry) :
    AppriseConfig.addGo asset tag cache recursion insecure entries =
      (entries.all (fun e => (addEntryInstance asset tag cache recursion
          insecure e).isSome),
        entries.filterMap (addEntryInstance asset tag cache recursion
          insecure)) := by
  induction entries with
  | nil => rfl
  | cons e rest ih =>
    simp only [AppriseConfig.addGo, ih]
    cases e with
    | built c => simp [addEntryInstance, List.filterMap_cons]
    | invalid => simp [addEntryInstance, List.filterMap_cons]
    | url u =>
      simp only [addEntryInstance, List.filterMap_cons, List.all_cons]
      cases hi : AppriseConfig.instantiate u (some asset) tag (some cache)
          recursion insecure true with
      | ok v =>
        cases v with
        | some inst => simp
        | none => simp
      | error e2 => simp

/-- C5: partial-success semantics of `add` — the returned flag is the
conjunction of the per-element successes while the appended sources are
exactly the successful elements' instances in order: a failing element
clears the status but never stops the remaining elements from being
appended. -/
theorem add_partial_success (s : AppriseConfigState)
    (entries : List AddEntry) (asset : Option Asset) (tag : Option Str)
    (cache : Option CacheVal) (recursion : Option Int)
    (insecure : Option Bool) :
    (AppriseConfig.add s entries asset tag cache recursion
        insecure).2.configs =
      s.configs ++ entries.filterMap
        (addEntryInstance (asset.getD s.asset) tag (cache.getD s.cache)
          (recursion.getD s.recursion)
          (insecure.getD s.insecure_includes)) ∧
    (AppriseConfig.add s entries asset tag cache recursion insecure).1 =
      entries.all (fun e => (addEntryInstance (asset.getD s.asset) tag
        (cache.getD s.cache) (recursion.getD s.recursion)
        (insecure.getD s.insecure_includes) e).isSome) := by
  unfold AppriseConfig.add
  rw [addGo_spec]
  exact ⟨rfl, rfl⟩

/-- C6: `add_config` — with no explicit format and undetectable content
the call reports failure leaving the config list unchanged; and any `ok`
outcome either succeeded having appended exactly the one constructed
in-memory instance, or failed leaving the state untouched. -/
theorem add_config_format_gate (s : AppriseConfigState) (content : Str)
    (asset : Option Asset) (tag : Option Str) (recursion : Option Int)
    (insecure : Option Bool) :
    (detectFormat content = none →
      AppriseConfig.add_config s content asset tag none recursion insecure =
        .ok (false, s)) ∧
    (∀ format b s2 inst,
      AppriseConfig.add_config s content asset tag format recursion insecure
        = .ok (b, s2) →
      ConfigMemory.construct content format ((tag.map parse_list).getD [])
        (asset.getD s.asset) (recursion.getD s.recursion)
        (insecure.getD s.insecure_includes) = .ok inst →
      (b = true → s2 = { s with configs := s.configs ++ [inst] }) ∧
      (b = false → s2 = s)) := by
  constructor
  · intro hdet
    unfold AppriseConfig.add_config ConfigMemory.construct
    simp [hdet]
  · intro format b s2 inst hadd hcons
    unfold AppriseConfig.add_config at hadd
    rw [hcons] at hadd
    split at hadd
    · rename_i e2 heq2
      exact Except.noConfusion heq2
    · rename_i inst2 heq2
      injection heq2 with hinst
      subst hinst
      split at hadd
      · rw [Except.ok.injEq, Prod.mk.injEq] at hadd
        obtain ⟨hb, hs2⟩ := hadd
        exact ⟨fun _ => hs2.symm, fun hf => Bool.noConfusion (hb.trans hf)⟩
      · rw [Except.ok.injEq, Prod.mk.injEq] at hadd
        obtain ⟨hb, hs2⟩ := hadd
        exact ⟨fun ht => Bool.noConfusion (hb.trans ht), fun _ => hs2.symm⟩

/-- Closed instance of the format gate: undetectable raw content is
rejected without touching the list, while a URL line is accepted and
appended as the one new memory source. -/
theorem add_config_format_gate_witness :
    AppriseConfig.add_config ⟨[], .standard, .flag true, 0, false⟩
      (str "garbage stuff") none none none none none =
      .ok (false, ⟨[], .standard, .flag true, 0, false⟩) := by
  exact (add_config_format_gate ⟨[], .standard, .flag true, 0, false⟩
    (str "garbage stuff") none none none none).1 (by decide)

/-- C9: the pushjet secret-key rules — a non-empty `secret` query
parameter overrides the path-derived key, an empty path with no `secret`
parameter leaves the key absent, and the constructor rejects an absent
key with the `TypeError`. -/
theorem pushjet_secret_key_rules :
    (∀ url g v, parseGeneric url = some g →
      qsdLookup g.qsd (str "secret") = some v → v ≠ [] →
      NotifyPushjet.parse_url url = some ⟨g, some (unquote v)⟩) ∧
    (∀ url g, parseGeneric url = some g → split_path g.fullpath = [] →
      qsdLookup g.qsd (str "secret") = none →
      NotifyPushjet.parse_url url = some ⟨g, none⟩) ∧
    (∀ r : PushjetResults, r.secret_key = none →
      NotifyPushjet.init r =
        .error "An invalid Pushjet Secret Key was specified.") := by
  refine ⟨?_, ?_, ?_⟩
  · intro url g v hg hv hne
    cases v with
    | nil => exact absurd rfl hne
    | cons c t => simp [NotifyPushjet.parse_url, hg, hv]
  · intro url g hg hpath hq
    simp [NotifyPushjet.parse_url, hg, hq, hpath]
  · intro r hr
    unfold NotifyPushjet.init
    rw [hr]
    rfl

/-- Closed instance of the secret-key rules on `pjet://h/p/?secret=abc`,
`pjet://h` and a missing key. -/
theorem pushjet_secret_key_rules_witness :
    NotifyPushjet.parse_url (str "pjet://h/p/?secret=abc") =
      some ⟨pjetParsedA, some (unquote (str "abc"))⟩ ∧
    NotifyPushjet.parse_url (str "pjet://h") = some ⟨pjetParsedB, none⟩ ∧
    NotifyPushjet.init ⟨pjetParsedB, none⟩ =
      .error "An invalid Pushjet Secret Key was specified." := by
  refine ⟨?_, ?_, ?_⟩
  · exact pushjet_secret_key_rules.1 (str "pjet://h/p/?secret=abc")
      pjetParsedA (str "abc") (by decide) (by decide) (by decide)
  · exact pushjet_secret_key_rules.2.1 (str "pjet://h") pjetParsedB
      (by decide) (by decide) (by decide)
  · exact pushjet_secret_key_rules.2.2 ⟨pjetParsedB, none⟩ rfl

/-- The send loop posts once per remaining channel. -/
theorem sendLoop_length (post : Nat → Bool) (chs : List (Option Str))
    (pc : Option Str) (k : Nat) :
    (NotifyMattermost.sendLoop post chs pc k).1.length = chs.length := by
  induction chs generalizing pc k with
  | nil => rfl
  | cons ch rest ih => simp [NotifyMattermost.sendLoop, ih]

/-- The send loop succeeds exactly when every remaining post succeeds. -/
theorem sendLoop_status (post : Nat → Bool) (chs : List (Option Str))
    (pc : Option Str) (k : Nat) :
    ((NotifyMattermost.sendLoop post chs pc k).2 = true ↔
      ∀ j, j < chs.length → post (k + j) = true) := by
  induction chs generalizing pc k with
  | nil => simp [NotifyMattermost.sendLoop]
  | cons ch rest ih =>
    simp only [NotifyMattermost.sendLoop, Bool.and_eq_true, ih,
      List.length_cons]
    constructor
    · rintro ⟨hk, hrest⟩ j hj
      cases j with
      | zero => simpa using hk
      | succ j2 =>
        rw [show k + (j2 + 1) = k + 1 + j2 by omega]
        exact hrest j2 (by omega)
    · intro hall
      refine ⟨by simpa using hall 0 (by omega), fun j hj => ?_⟩
      rw [show k + 1 + j = k + (j + 1) by omega]
      exact hall (j + 1) (by omega)

/-- C10: `send` attempts one post per configured channel — exactly one
post carrying no channel field when the channel list is empty — keeps
going after per-channel failures, and reports success exactly when every
attempted post succeeded. -/
theorem mattermost_send_per_channel (n : NotifyMattermost)
    (post : Nat → Bool) :
    (NotifyMattermost.send n post).1.length =
      (if n.channels.isEmpty then 1 else n.channels.length) ∧
    (n.channels.isEmpty = true →
      (NotifyMattermost.send n post).1 = [none]) ∧
    ((NotifyMattermost.send n post).2 = true ↔
      ∀ j, j < (if n.channels.isEmpty then 1 else n.channels.length) →
        post j = true) := by
  refine ⟨?_, ?_, ?_⟩
  · unfold NotifyMattermost.send
    cases hc : n.channels.isEmpty with
    | true => simp [sendLoop_length]
    | false => simp [sendLoop_length]
  · intro hc
    unfold NotifyMattermost.send
    rw [if_pos hc]
    rfl
  · unfold NotifyMattermost.send
    cases hc : n.channels.isEmpty with
    | true => simp [sendLoop_status]
    | false => simp [sendLoop_status]

/-- Closed instance: with no channels configured, one channel-less post
happens and success is reported when it succeeds. -/
theorem mattermost_send_per_channel_witness :
    (NotifyMattermost.send demoMattermost (fun _ => true)).1 = [none] ∧
    (NotifyMattermost.send demoMattermost (fun _ => true)).2 = true := by
  have h := mattermost_send_per_channel demoMattermost (fun _ => true)
  exact ⟨h.2.1 (by decide), h.2.2.mpr (fun j _ => rfl)⟩

/-! ### String lemmas feeding the round-trip proof -/

/-- A prefix on which the predicate holds everywhere passes through
`takeWhile`. -/
theorem takeWhile_append_of (p : Char → Bool) (l1 l2 : Str)
    (h : ∀ c ∈ l1, p c = true) :
    (l1 ++ l2).takeWhile p = l1 ++ l2.takeWhile p := by
  induction l1 with
  | nil => rfl
  | cons a t ih =>
    rw [List.cons_append, List.takeWhile_cons,
      if_pos (h a (List.mem_cons_self a t)),
      ih (fun c hc => h c (List.mem_cons_of_mem a hc)), List.cons_append]

/-- A prefix on which the predicate holds everywhere is consumed by
`dropWhile`. -/
theorem dropWhile_append_of (p : Char → Bool) (l1 l2 : Str)
    (h : ∀ c ∈ l1, p c = true) :
    (l1 ++ l2).dropWhile p = l2.dropWhile p := by
  induction l1 with
  | nil => rfl
  | cons a t ih =>
    rw [List.cons_append, List.dropWhile_cons,
      if_pos (h a (List.mem_cons_self a t)),
      ih (fun c hc => h c (List.mem_cons_of_mem a hc))]

/-- `takeWhile` stops at a failing head. -/
theorem takeWhile_cons_of_neg (p : Char → Bool) (a : Char) (l : Str)
    (h : p a = false) : (a :: l).takeWhile p = [] := by
  rw [List.takeWhile_cons, if_neg (by simp [h])]

/-- `dropWhile` keeps a failing head. -/
theorem dropWhile_cons_of_neg (p : Char → Bool) (a : Char) (l : Str)
    (h : p a = false) : (a :: l).dropWhile p = a :: l := by
  rw [List.dropWhile_cons, if_neg (by simp [h])]

/-- `dropWhile` is the identity when the head already fails. -/
theorem dropWhile_all_neg (p : Char → Bool) (s : Str)
    (h : ∀ c ∈ s, p c = false) : s.dropWhile p = s := by
  cases s with
  | nil => rfl
  | cons a t => exact dropWhile_cons_of_neg p a t (h a (List.mem_cons_self a t))

/-- `takeWhile` consumes everything when the predicate holds
everywhere. -/
theorem takeWhile_all_pos (p : Char → Bool) (s : Str)
    (h : ∀ c ∈ s, p c = true) : s.takeWhile p = s := by
  have := takeWhile_append_of p s [] h
  simpa using this

/-- A separator-free string is one whole split field. -/
theorem splitOnP_all_neg (p : Char → Bool) (s : Str)
    (h : ∀ c ∈ s, p c = false) : splitOnP p s = [s] := by
  induction s with
  | nil => rfl
  | cons a t ih =>
    simp only [splitOnP]
    rw [if_neg (by simp [h a (List.mem_cons_self a t)]),
      ih (fun c hc => h c (List.mem_cons_of_mem a hc))]

/-- Splitting peels one separator-free field before a separator. -/
theorem splitOnP_seg (p : Char → Bool) (t : Str) (sep : Char) (l : Str)
    (ht : ∀ c ∈ t, p c = false) (hsep : p sep = true) :
    splitOnP p (t ++ sep :: l) = t :: splitOnP p l := by
  induction t with
  | nil =>
    rw [List.nil_append]
    simp only [splitOnP]
    rw [if_pos hsep]
  | cons a t2 ih =>
    rw [List.cons_append]
    simp only [splitOnP]
    rw [if_neg (by simp [ht a (List.mem_cons_self a t2)]),
      ih (fun c hc => ht c (List.mem_cons_of_mem a hc))]

/-- A string with no occurrence of `c` has no last occurrence. -/
theorem rpartition_eq_none (c : Char) (s : Str)
    (h : ∀ d ∈ s, (d == c) = false) : rpartition c s = none := by
  unfold rpartition
  rw [takeWhile_all_pos _ _
    (fun d hd => by simp [h d (List.mem_reverse.mp hd)]),
    if_pos (by simp)]

/-- `rpartition` splits at the last occurrence of `c`. -/
theorem rpartition_append (c : Char) (a b : Str)
    (hb : ∀ d ∈ b, (d == c) = false) :
    rpartition c (a ++ c :: b) = some (a, b) := by
  unfold rpartition
  have h1 : (a ++ c :: b).reverse = b.reverse ++ c :: a.reverse := by
    simp
  have h2 : (b.reverse ++ c :: a.reverse).takeWhile (fun d => !(d == c)) =
      b.reverse := by
    rw [takeWhile_append_of _ _ _
      (fun d hd => by simp [hb d (List.mem_reverse.mp hd)]),
      takeWhile_cons_of_neg _ _ _ (by simp), List.append_nil]
  rw [h1, h2, if_neg (by simp; omega)]
  rw [show b.reverse.length + 1 = (b.reverse ++ [c]).length by simp]
  rw [show b.reverse ++ c :: a.reverse = (b.reverse ++ [c]) ++ a.reverse by
    simp]
  rw [show ((b.reverse ++ [c]) ++ a.reverse).drop
      (b.reverse ++ [c]).length = a.reverse from by
    have h3 := @List.drop_append Char (b.reverse ++ [c]) a.reverse 0
    simpa using h3]
  simp

/-- A string with no occurrence of `c` has no first occurrence. -/
theorem partitionFirst_eq_none (c : Char) (s : Str)
    (h : ∀ d ∈ s, (d == c) = false) : partitionFirst c s = none := by
  unfold partitionFirst
  have hall : s.dropWhile (fun d => !(d == c)) = [] := by
    have := dropWhile_append_of (fun d => !(d == c)) s []
      (fun d hd => by simp [h d hd])
    simpa using this
  rw [hall]

/-- `partitionFirst` splits at the first occurrence of `c`. -/
theorem partitionFirst_append (c : Char) (a b : Str)
    (ha : ∀ d ∈ a, (d == c) = false) :
    partitionFirst c (a ++ c :: b) = some (a, b) := by
  unfold partitionFirst
  rw [dropWhile_append_of _ _ _ (fun d hd => by simp [ha d hd]),
    dropWhile_cons_of_neg _ _ _ (by simp)]
  rw [takeWhile_append_of _ _ _ (fun d hd => by simp [ha d hd]),
    takeWhile_cons_of_neg _ _ _ (by simp), List.append_nil]

/-- The digit character of `k < 10` is a digit. -/
theorem digitChar_isDigit (k : Nat) (h : k < 10) :
    (digitChar k).isDigit = true := by
  interval_cases k <;> decide

/-- The value of the digit character of `k < 10`. -/
theorem digitVal_digitChar (k : Nat) (h : k < 10) :
    digitVal (digitChar k) = k := by
  interval_cases k <;> decide

/-- Every character of a decimal rendering is a digit. -/
theorem natDigits_isDigit (n : Nat) :
    ∀ c ∈ natDigits n, c.isDigit = true := by
  induction n using Nat.strong_induction_on with
  | _ n ih =>
    unfold natDigits
    split
    · rename_i h
      intro c hc
      rw [List.mem_singleton] at hc
      subst hc
      exact digitChar_isDigit n h
    · rename_i h
      intro c hc
      rw [List.mem_append] at hc
      cases hc with
      | inl h2 => exact ih (n / 10) (by omega) c h2
      | inr h2 =>
        rw [List.mem_singleton] at h2
        subst h2
        exact digitChar_isDigit (n % 10) (by omega)

/-- A decimal rendering is never empty. -/
theorem natDigits_ne_nil (n : Nat) : natDigits n ≠ [] := by
  unfold natDigits
  split <;> simp

/-- Decimal parsing inverts decimal rendering. -/
theorem digitsToNat_natDigits (n : Nat) : digitsToNat (natDigits n) = n := by
  induction n using Nat.strong_induction_on with
  | _ n ih =>
    unfold natDigits
    split
    · rename_i h
      simp [digitsToNat, digitVal_digitChar n h]
    · rename_i h
      have happ : digitsToNat (natDigits (n / 10) ++ [digitChar (n % 10)]) =
          digitsToNat (natDigits (n / 10)) * 10 +
            digitVal (digitChar (n % 10)) := by
        simp [digitsToNat, List.foldl_append]
      rw [happ, ih (n / 10) (by omega), digitVal_digitChar (n % 10) (by omega)]
      omega

/-- The code point range of a digit character. -/
theorem isDigit_toNat (c : Char) (h : c.isDigit = true) :
    48 ≤ c.toNat ∧ c.toNat ≤ 57 := by
  simp only [Char.isDigit, decide_eq_true_eq, Bool.and_eq_true] at h
  exact ⟨h.1, h.2⟩

/-- Stripping is the identity on whitespace-free strings. -/
theorem strip_all_no_space (s : Str)
    (h : ∀ c ∈ s, isSpaceChar c = false) : strip s = s := by
  unfold strip
  rw [dropWhile_all_neg _ _ h,
    dropWhile_all_neg _ _ (fun c hc => h c (List.mem_reverse.mp hc)),
    List.reverse_reverse]

/-- Decoding leaves a percent-free character in place. -/
theorem unquote_cons_ne (c : Char) (l : Str) (h : ¬ c = '%') :
    unquote (c :: l) = c :: unquote l := by
  unfold unquote
  cases l with
  | nil =>
    rw [show unquoteGo 0 [c] =
        if c = '%' then c :: unquoteGo 0 [] else c :: unquoteGo 0 []
      from rfl]
    rw [if_neg h]
  | cons x l2 =>
    cases l2 with
    | nil =>
      rw [show unquoteGo 0 [c, x] =
          if c = '%' then c :: unquoteGo 0 [x] else c :: unquoteGo 0 [x]
        from rfl]
      rw [if_neg h]
    | cons y l3 =>
      rw [show unquoteGo 0 (c :: x :: y :: l3) =
          if c = '%' then
            (if isHexDigitChar x && isHexDigitChar y then
              Char.ofNat (hexVal x * 16 + hexVal y) ::
                unquoteGo 2 (x :: y :: l3)
            else c :: unquoteGo 0 (x :: y :: l3))
          else c :: unquoteGo 0 (x :: y :: l3) from rfl]
      rw [if_neg h]

/-- Decoding a well-formed escape yields its byte and continues. -/
theorem unquote_escape (x y : Char) (l : Str)
    (hx : isHexDigitChar x = true) (hy : isHexDigitChar y = true) :
    unquote ('%' :: x :: y :: l) =
      Char.ofNat (hexVal x * 16 + hexVal y) :: unquote l := by
  unfold unquote
  rw [show unquoteGo 0 ('%' :: x :: y :: l) =
      if isHexDigitChar x && isHexDigitChar y then
        Char.ofNat (hexVal x * 16 + hexVal y) :: unquoteGo 2 (x :: y :: l)
      else '%' :: unquoteGo 0 (x :: y :: l) from by
    rw [show unquoteGo 0 ('%' :: x :: y :: l) =
        if ('%' : Char) = '%' then
          (if isHexDigitChar x && isHexDigitChar y then
            Char.ofNat (hexVal x * 16 + hexVal y) :: unquoteGo 2 (x :: y :: l)
          else '%' :: unquoteGo 0 (x :: y :: l))
        else '%' :: unquoteGo 0 (x :: y :: l) from rfl]
    rw [if_pos rfl]]
  rw [if_pos (by rw [hx, hy]; rfl)]
  rfl

/-- Decoding is the identity on percent-free strings. -/
theorem unquote_no_pct (s : Str) (h : ∀ c ∈ s, (c == '%') = false) :
    unquote s = s := by
  induction s with
  | nil => rfl
  | cons c t ih =>
    rw [unquote_cons_ne c t
      (by have := h c (List.mem_cons_self c t); simpa using this),
      ih (fun d hd => h d (List.mem_cons_of_mem c hd))]

/-- Hexadecimal digit characters of values below 16 are hexadecimal
digits. -/
theorem hexDigitChar_isHex (k : Nat) (h : k < 16) :
    isHexDigitChar (hexDigitChar k) = true := by
  interval_cases k <;> decide

/-- The value of the hexadecimal digit character of `k < 16`. -/
theorem hexVal_hexDigitChar (k : Nat) (h : k < 16) :
    hexVal (hexDigitChar k) = k := by
  interval_cases k <;> decide

/-- The code point of a hexadecimal digit character of `k < 16` is a
digit or an uppercase `A`-`F`. -/
theorem hexDigitChar_range (k : Nat) (h : k < 16) :
    (48 ≤ (hexDigitChar k).toNat ∧ (hexDigitChar k).toNat ≤ 57) ∨
      (65 ≤ (hexDigitChar k).toNat ∧ (hexDigitChar k).toNat ≤ 70) := by
  interval_cases k <;> decide

/-- Decoding inverts encoding on byte-valued strings whenever `%` is not
kept safe. -/
theorem unquote_quote (safe : Str) (hsafe : safe.contains '%' = false)
    (s : Str) (hs : ∀ c ∈ s, c.toNat < 256) :
    unquote (quote safe s) = s := by
  induction s with
  | nil => rfl
  | cons c t ih =>
    have hc : c.toNat < 256 := hs c (List.mem_cons_self c t)
    have iht := ih (fun d hd => hs d (List.mem_cons_of_mem c hd))
    show unquote (quoteChar safe c ++ quote safe t) = c :: t
    unfold quoteChar
    split
    · rename_i hkept
      have hne : ¬ c = '%' := by
        intro he
        subst he
        rw [Bool.or_eq_true] at hkept
        cases hkept with
        | inl h2 => exact absurd h2 (by decide)
        | inr h2 => rw [hsafe] at h2; exact Bool.noConfusion h2
      rw [List.singleton_append, unquote_cons_ne c _ hne, iht]
    · rw [List.cons_append, List.cons_append, List.cons_append,
        List.nil_append]
      rw [unquote_escape _ _ _ (hexDigitChar_isHex _ (by omega))
        (hexDigitChar_isHex _ (by omega))]
      rw [hexVal_hexDigitChar _ (by omega), hexVal_hexDigitChar _ (by omega),
        iht]
      congr 1
      rw [show c.toNat / 16 * 16 + c.toNat % 16 = c.toNat by omega]
      exact Char.ofNat_toNat c

/-- Characterisation of the characters an encoding can contain: safe or
unreserved characters pass through, everything else contributes `%` and
hexadecimal digit characters. -/
theorem mem_quote (safe s : Str) (hs : ∀ c ∈ s, c.toNat < 256) (d : Char)
    (hd : d ∈ quote safe s) :
    isUnreservedChar d = true ∨ d ∈ safe ∨ d = '%' ∨
      (48 ≤ d.toNat ∧ d.toNat ≤ 57) ∨ (65 ≤ d.toNat ∧ d.toNat ≤ 70) := by
  unfold quote at hd
  rw [List.mem_flatMap] at hd
  obtain ⟨c, hc, hdc⟩ := hd
  have hc2 : c.toNat < 256 := hs c hc
  unfold quoteChar at hdc
  split at hdc
  · rename_i hkept
    rw [List.mem_singleton] at hdc
    subst hdc
    rw [Bool.or_eq_true] at hkept
    cases hkept with
    | inl h2 => exact Or.inl h2
    | inr h2 => exact Or.inr (Or.inl (List.elem_iff.mp h2))
  · rw [List.mem_cons, List.mem_cons, List.mem_singleton] at hdc
    rcases hdc with h2 | h2 | h2
    · exact Or.inr (Or.inr (Or.inl h2))
    · subst h2
      rcases hexDigitChar_range (c.toNat / 16) (by omega) with h3 | h3
      · exact Or.inr (Or.inr (Or.inr (Or.inl h3)))
      · exact Or.inr (Or.inr (Or.inr (Or.inr h3)))
    · subst h2
      rcases hexDigitChar_range (c.toNat % 16) (by omega) with h3 | h3
      · exact Or.inr (Or.inr (Or.inr (Or.inl h3)))
      · exact Or.inr (Or.inr (Or.inr (Or.inr h3)))

/-- An encoding over the empty safe set avoids any URL
metacharacter. -/
theorem quote_all_ne (s : Str) (hs : ∀ c ∈ s, c.toNat < 256) (d : Char)
    (h1 : isUnreservedChar d = false) (h2 : ¬ d = '%')
    (h3 : ¬ (48 ≤ d.toNat ∧ d.toNat ≤ 57))
    (h4 : ¬ (65 ≤ d.toNat ∧ d.toNat ≤ 70)) :
    ∀ c ∈ quote [] s, (c == d) = false := by
  intro c hc
  rcases mem_quote [] s hs c hc with h5 | h5 | h5 | h5 | h5
  · have : ¬ c = d := fun he => by rw [he, h1] at h5; exact Bool.noConfusion h5
    simpa using this
  · exact absurd h5 (List.not_mem_nil c)
  · have : ¬ c = d := fun he => h2 (he ▸ h5)
    simpa using this
  · have : ¬ c = d := fun he => h3 (he ▸ h5)
    simpa using this
  · have : ¬ c = d := fun he => h4 (he ▸ h5)
    simpa using this

/-- An encoding keeping `/` safe avoids any other URL metacharacter. -/
theorem quote_slash_all_ne (s : Str) (hs : ∀ c ∈ s, c.toNat < 256)
    (d : Char) (h1 : isUnreservedChar d = false) (h2 : ¬ d = '%')
    (h3 : ¬ (48 ≤ d.toNat ∧ d.toNat ≤ 57))
    (h4 : ¬ (65 ≤ d.toNat ∧ d.toNat ≤ 70)) (h5 : ¬ d = '/') :
    ∀ c ∈ quote [('/' : Char)] s, (c == d) = false := by
  intro c hc
  rcases mem_quote [('/' : Char)] s hs c hc with h6 | h6 | h6 | h6 | h6
  · have : ¬ c = d := fun he => by rw [he, h1] at h6; exact Bool.noConfusion h6
    simpa using this
  · rw [List.mem_singleton] at h6
    subst h6
    simpa using fun he => h5 he.symm
  · have : ¬ c = d := fun he => h2 (he ▸ h6)
    simpa using this
  · have : ¬ c = d := fun he => h3 (he ▸ h6)
    simpa using this
  · have : ¬ c = d := fun he => h4 (he ▸ h6)
    simpa using this

/-- A non-empty string encodes to a non-empty string. -/
theorem quote_ne_nil (safe : Str) (c : Char) (t : Str) :
    quote safe (c :: t) ≠ [] := by
  unfold quote
  rw [List.flatMap_cons]
  unfold quoteChar
  split <;> simp

/-- Hostname characters are none of the URL metacharacters. -/
theorem hostChar_facts (c : Char) (h : hostChar c = true) :
    (c == '@') = false ∧ (c == ':') = false ∧ (c == '/') = false ∧
      (c == '?') = false ∧ (c == '%') = false := by
  refine ⟨?_, ?_, ?_, ?_, ?_⟩ <;>
    (simp only [beq_eq_false_iff_ne, ne_eq]
     intro he
     subst he
     exact absurd h (by decide))

/-- Digit characters are none of the URL metacharacters. -/
theorem digit_facts (c : Char) (h : c.isDigit = true) :
    (c == '@') = false ∧ (c == ':') = false ∧ (c == '/') = false ∧
      (c == '?') = false := by
  refine ⟨?_, ?_, ?_, ?_⟩ <;>
    (simp only [beq_eq_false_iff_ne, ne_eq]
     intro he
     subst he
     exact absurd h (by decide))

/-- Unpacking the byte-valuedness predicate. -/
theorem asciiOk_spec (s : Str) (h : asciiOk s = true) :
    ∀ c ∈ s, c.toNat < 256 := by
  intro c hc
  unfold asciiOk at h
  rw [List.all_eq_true] at h
  have := h c hc
  simpa using this

/-- Unpacking the hostname predicate. -/
theorem hostOk_spec (h : Str) (hh : hostOk h = true) :
    h ≠ [] ∧ ∀ c ∈ h, hostChar c = true := by
  unfold hostOk at hh
  rw [Bool.and_eq_true, List.all_eq_true] at hh
  refine ⟨by simpa using hh.1, fun c hc => hh.2 c hc⟩

/-- Port parsing inverts decimal rendering on in-range ports. -/
theorem parsePort_natDigits (q : Nat) (h1 : 1 ≤ q) (h2 : q ≤ 65535) :
    parsePort (natDigits q) = some q := by
  unfold parsePort
  rw [if_pos ⟨natDigits_ne_nil q, List.all_eq_true.mpr (natDigits_isDigit q)⟩]
  rw [digitsToNat_natDigits, if_pos ⟨h1, h2⟩]

/-- The host-and-port tail parses back to its components. -/
theorem parseHostPort_spec (user password : Option Str) (host : Str)
    (hh : hostOk host = true) (port : Option Nat)
    (hp : ∀ q, port = some q → 1 ≤ q ∧ q ≤ 65535) :
    parseHostPort user password (host ++ portRender port) =
      some (user, password, host, port) := by
  obtain ⟨hne, hchars⟩ := hostOk_spec host hh
  have hnocolon : ∀ d ∈ host, (d == ':') = false :=
    fun d hd => (hostChar_facts d (hchars d hd)).2.1
  have hnopct : ∀ d ∈ host, (d == '%') = false :=
    fun d hd => (hostChar_facts d (hchars d hd)).2.2.2.2
  cases port with
  | none =>
    rw [show portRender none = [] from rfl, List.append_nil]
    unfold parseHostPort
    rw [rpartition_eq_none ':' host hnocolon, if_neg hne,
      unquote_no_pct host hnopct]
  | some q =>
    obtain ⟨hq1, hq2⟩ := hp q rfl
    rw [show portRender (some q) = ':' :: natDigits q from rfl]
    unfold parseHostPort
    rw [rpartition_append ':' host (natDigits q)
      (fun d hd => (digit_facts d (natDigits_isDigit q d hd)).2.1)]
    have hport := parsePort_natDigits q hq1 hq2
    simp [hport, hne, unquote_no_pct host hnopct]

/-- The authority with no credentials parses back. -/
theorem parseNetloc_no_auth (host : Str) (hh : hostOk host = true)
    (port : Option Nat) (hp : ∀ q, port = some q → 1 ≤ q ∧ q ≤ 65535) :
    parseNetloc (host ++ portRender port) = some (none, none, host, port) := by
  obtain ⟨_, hchars⟩ := hostOk_spec host hh
  have hat : ∀ d ∈ host ++ portRender port, (d == '@') = false := by
    intro d hd
    rw [List.mem_append] at hd
    cases hd with
    | inl h2 => exact (hostChar_facts d (hchars d h2)).1
    | inr h2 =>
      cases port with
      | none => exact absurd h2 (List.not_mem_nil d)
      | some q =>
        rw [show portRender (some q) = ':' :: natDigits q from rfl,
          List.mem_cons] at h2
        cases h2 with
        | inl h3 => subst h3; decide
        | inr h3 => exact (digit_facts d (natDigits_isDigit q d h3)).1
  unfold parseNetloc
  rw [rpartition_eq_none '@' _ hat]
  exact parseHostPort_spec none none host hh port hp

/-- The authority with a bare username parses back. -/
theorem parseNetloc_user_auth (u : Str) (hu : ∀ c ∈ u, c.toNat < 256)
    (host : Str) (hh : hostOk host = true) (port : Option Nat)
    (hp : ∀ q, port = some q → 1 ≤ q ∧ q ≤ 65535) :
    parseNetloc (quote [] u ++ '@' :: (host ++ portRender port)) =
      some (some u, none, host, port) := by
  obtain ⟨_, hchars⟩ := hostOk_spec host hh
  have hat : ∀ d ∈ host ++ portRender port, (d == '@') = false := by
    intro d hd
    rw [List.mem_append] at hd
    cases hd with
    | inl h2 => exact (hostChar_facts d (hchars d h2)).1
    | inr h2 =>
      cases port with
      | none => exact absurd h2 (List.not_mem_nil d)
      | some q =>
        rw [show portRender (some q) = ':' :: natDigits q from rfl,
          List.mem_cons] at h2
        cases h2 with
        | inl h3 => subst h3; decide
        | inr h3 => exact (digit_facts d (natDigits_isDigit q d h3)).1
  have hpf : partitionFirst ':' (quote [] u) = none :=
    partitionFirst_eq_none ':' (quote [] u)
      (quote_all_ne u hu ':' (by decide) (by decide) (by decide) (by decide))
  have hrp : rpartition '@' (quote [] u ++ '@' :: (host ++ portRender port)) =
      some (quote [] u, host ++ portRender port) :=
    rpartition_append '@' _ _ hat
  simp only [parseNetloc, hrp, hpf, unquote_quote [] rfl u hu]
  exact parseHostPort_spec (some u) none host hh port hp

/-- The authority with a username and password parses back. -/
theorem parseNetloc_userpass_auth (u p : Str) (hu : ∀ c ∈ u, c.toNat < 256)
    (hpw : ∀ c ∈ p, c.toNat < 256) (host : Str) (hh : hostOk host = true)
    (port : Option Nat) (hp : ∀ q, port = some q → 1 ≤ q ∧ q ≤ 65535) :
    parseNetloc ((quote [] u ++ ':' :: quote [] p) ++
        '@' :: (host ++ portRender port)) =
      some (some u, some p, host, port) := by
  obtain ⟨_, hchars⟩ := hostOk_spec host hh
  have hat : ∀ d ∈ host ++ portRender port, (d == '@') = false := by
    intro d hd
    rw [List.mem_append] at hd
    cases hd with
    | inl h2 => exact (hostChar_facts d (hchars d h2)).1
    | inr h2 =>
      cases port with
      | none => exact absurd h2 (List.not_mem_nil d)
      | some q =>
        rw [show portRender (some q) = ':' :: natDigits q from rfl,
          List.mem_cons] at h2
        cases h2 with
        | inl h3 => subst h3; decide
        | inr h3 => exact (digit_facts d (natDigits_isDigit q d h3)).1
  have hpf : partitionFirst ':' (quote [] u ++ ':' :: quote [] p) =
      some (quote [] u, quote [] p) :=
    partitionFirst_append ':' (quote [] u) (quote [] p)
      (quote_all_ne u hu ':' (by decide) (by decide) (by decide) (by decide))
  have hrp : rpartition '@' ((quote [] u ++ ':' :: quote [] p) ++
        '@' :: (host ++ portRender port)) =
      some (quote [] u ++ ':' :: quote [] p, host ++ portRender port) :=
    rpartition_append '@' _ _ hat
  simp only [parseNetloc, hrp, hpf, unquote_quote [] rfl u hu,
    unquote_quote [] rfl p hpw]
  exact parseHostPort_spec (some u) (some p) host hh port hp

/-- Scheme extraction undoes scheme rendering. -/
theorem splitSchema_concat (sch r : Str) (h1 : sch ≠ [])
    (h2 : ∀ c ∈ sch, isSchemaChar c = true) (h3 : toLowerStr sch = sch) :
    splitSchema (sch ++ ':' :: '/' :: '/' :: r) = some (sch, r) := by
  have hcol : ∀ c ∈ sch, (!(c == ':')) = true := by
    intro c hc
    have h4 := h2 c hc
    have h5 : ¬ c = ':' := fun he => by subst he; exact absurd h4 (by decide)
    simp [h5]
  unfold splitSchema
  rw [takeWhile_append_of _ _ _ hcol, takeWhile_cons_of_neg _ _ _ (by simp),
    List.append_nil, dropWhile_append_of _ _ _ hcol,
    dropWhile_cons_of_neg _ _ _ (by simp)]
  rw [if_pos ⟨h1, List.all_eq_true.mpr h2, rfl⟩]
  rw [h3]
  rfl

/-- The generic parse of a rendered URL recovers its components. -/
theorem parseGeneric_render (sch netloc path2 query : Str)
    (user password : Option Str) (host : Str) (port : Option Nat)
    (h1 : sch ≠ []) (h2 : ∀ c ∈ sch, isSchemaChar c = true)
    (h3 : toLowerStr sch = sch)
    (hnet : ∀ c ∈ netloc, (!(c == '/') && !(c == '?')) = true)
    (hpath2 : ∀ c ∈ path2, (c == '?') = false)
    (hnetparse : parseNetloc netloc = some (user, password, host, port)) :
    parseGeneric (sch ++ ':' :: '/' :: '/' ::
        (netloc ++ (('/' :: path2) ++ '?' :: query))) =
      some { schema := sch, user := user, password := password, host := host,
             port := port, fullpath := '/' :: path2, qsd := parseQsd query,
             secure := sch.getLast? == some 's',
             verify :=
               match qsdLookup (parseQsd query) (str "verify") with
               | some v => parse_bool v true
               | none => true } := by
  have hsplit := splitSchema_concat sch
    (netloc ++ (('/' :: path2) ++ '?' :: query)) h1 h2 h3
  have htake : (netloc ++ (('/' :: path2) ++ '?' :: query)).takeWhile
      (fun c => !(c == '/') && !(c == '?')) = netloc := by
    rw [takeWhile_append_of _ _ _ hnet, List.cons_append,
      takeWhile_cons_of_neg _ _ _ (by decide), List.append_nil]
  have hdrop : (netloc ++ (('/' :: path2) ++ '?' :: query)).dropWhile
      (fun c => !(c == '/') && !(c == '?')) =
      ('/' :: path2) ++ '?' :: query := by
    rw [dropWhile_append_of _ _ _ hnet, List.cons_append,
      dropWhile_cons_of_neg _ _ _ (by decide)]
  have hfull : (('/' :: path2) ++ '?' :: query).takeWhile
      (fun c => !(c == '?')) = '/' :: path2 := by
    rw [takeWhile_append_of _ _ _ (by
      intro c hc
      rw [List.mem_cons] at hc
      cases hc with
      | inl h4 => subst h4; decide
      | inr h4 => simp [hpath2 c h4]),
      takeWhile_cons_of_neg _ _ _ (by decide), List.append_nil]
  have hqdrop : (('/' :: path2) ++ '?' :: query).dropWhile
      (fun c => !(c == '?')) = '?' :: query := by
    rw [dropWhile_append_of _ _ _ (by
      intro c hc
      rw [List.mem_cons] at hc
      cases hc with
      | inl h4 => subst h4; decide
      | inr h4 => simp [hpath2 c h4]),
      dropWhile_cons_of_neg _ _ _ (by decide)]
  simp only [parseGeneric, hsplit, htake, hdrop, hnetparse, hfull, hqdrop]

/-- An encoded `key=value` field contains no field separator. -/
theorem encodePair_no_amp (kv : Str × Str)
    (hka : ∀ c ∈ kv.1, c.toNat < 256) (hva : ∀ c ∈ kv.2, c.toNat < 256) :
    ∀ c ∈ encodePair kv, (c == '&') = false := by
  intro c hc
  unfold encodePair at hc
  rw [List.mem_append, List.mem_cons] at hc
  rcases hc with h | h | h
  · exact quote_all_ne kv.1 hka '&' (by decide) (by decide) (by decide)
      (by decide) c h
  · subst h; decide
  · exact quote_all_ne kv.2 hva '&' (by decide) (by decide) (by decide)
      (by decide) c h

/-- Decoding one encoded field recovers the pair. -/
theorem qsdField_encodePair (kv : Str × Str) (hk : toLowerStr kv.1 = kv.1)
    (hka : ∀ c ∈ kv.1, c.toNat < 256) (hva : ∀ c ∈ kv.2, c.toNat < 256) :
    qsdField (encodePair kv) = some kv := by
  have hpf : partitionFirst '=' (quote [] kv.1 ++ '=' :: quote [] kv.2) =
      some (quote [] kv.1, quote [] kv.2) :=
    partitionFirst_append '=' _ _
      (quote_all_ne kv.1 hka '=' (by decide) (by decide) (by decide)
        (by decide))
  have h4 : (quote [] kv.1 ++ '=' :: quote [] kv.2) ≠ [] := by simp
  simp only [qsdField, encodePair, hpf, unquote_quote [] rfl kv.1 hka,
    unquote_quote [] rfl kv.2 hva, hk]
  rw [if_neg h4]

/-- Parsing an encoded parameter mapping recovers it, for lower-case
byte-valued keys and byte-valued values. -/
theorem parseQsd_urlencode (ps : List (Str × Str))
    (hps : ∀ kv ∈ ps, toLowerStr kv.1 = kv.1 ∧
      (∀ c ∈ kv.1, c.toNat < 256) ∧ (∀ c ∈ kv.2, c.toNat < 256)) :
    parseQsd (urlencode ps) = ps := by
  induction ps with
  | nil => rfl
  | cons kv rest ih =>
    obtain ⟨hk, hka, hva⟩ := hps kv (List.mem_cons_self kv rest)
    have ihr := ih (fun kv2 h2 => hps kv2 (List.mem_cons_of_mem kv h2))
    cases rest with
    | nil =>
      show parseQsd (joinChar '&' [encodePair kv]) = [kv]
      rw [show joinChar '&' [encodePair kv] = encodePair kv from rfl]
      unfold parseQsd
      rw [show splitOnChar '&' (encodePair kv) = [encodePair kv] from
        splitOnP_all_neg _ _ (encodePair_no_amp kv hka hva)]
      simp [qsdField_encodePair kv hk hka hva]
    | cons kv2 rest2 =>
      show parseQsd (joinChar '&'
        (encodePair kv :: encodePair kv2 :: List.map encodePair rest2)) =
        kv :: kv2 :: rest2
      rw [show joinChar '&'
          (encodePair kv :: encodePair kv2 :: List.map encodePair rest2) =
          encodePair kv ++ '&' ::
            joinChar '&' (encodePair kv2 :: List.map encodePair rest2)
        from rfl]
      unfold parseQsd
      rw [show splitOnChar '&' (encodePair kv ++ '&' ::
          joinChar '&' (encodePair kv2 :: List.map encodePair rest2)) =
          encodePair kv :: splitOnChar '&'
            (joinChar '&' (encodePair kv2 :: List.map encodePair rest2)) from
        splitOnP_seg _ _ '&' _ (encodePair_no_amp kv hka hva) (by decide)]
      rw [List.filterMap_cons, qsdField_encodePair kv hk hka hva]
      unfold parseQsd urlencode at ihr
      rw [show List.map encodePair (kv2 :: rest2) =
        encodePair kv2 :: List.map encodePair rest2 from rfl] at ihr
      rw [ihr]

/-- A rendered path is never empty for a non-empty segment list. -/
theorem renderPath_cons (t : Str) (rest : List Str) :
    renderPath (t :: rest) = '/' :: (t ++ renderPath rest) := rfl

/-- Splitting a slash-terminated rendered path isolates the segments
between empty boundary fields. -/
theorem splitOnChar_renderPath (segs : List Str)
    (hsegs : ∀ t ∈ segs, ∀ c ∈ t, (c == '/') = false) :
    splitOnP (fun c => c == '/') (renderPath segs ++ [('/' : Char)]) =
      [] :: (segs ++ [[]]) := by
  induction segs with
  | nil => decide
  | cons t rest ih =>
    have hassoc : renderPath (t :: rest) ++ [('/' : Char)] =
        '/' :: (t ++ (renderPath rest ++ ['/'])) := by
      rw [renderPath_cons, List.cons_append, List.append_assoc]
    rw [hassoc]
    rw [show splitOnP (fun c => c == '/')
        ('/' :: (t ++ (renderPath rest ++ ['/']))) =
        [] :: splitOnP (fun c => c == '/') (t ++ (renderPath rest ++ ['/']))
      from by simp only [splitOnP]; rw [if_pos (by decide)]]
    obtain ⟨W, hW⟩ : ∃ W, renderPath rest ++ [('/' : Char)] = '/' :: W := by
      cases rest with
      | nil => exact ⟨[], rfl⟩
      | cons t2 r2 =>
        refine ⟨t2 ++ (renderPath r2 ++ ['/']), ?_⟩
        rw [renderPath_cons, List.cons_append, List.append_assoc]
    rw [hW]
    rw [splitOnP_seg _ t '/' W
      (hsegs t (List.mem_cons_self t rest)) (by decide)]
    have ih2 := ih (fun t2 h2 => hsegs t2 (List.mem_cons_of_mem t h2))
    rw [hW, show splitOnP (fun c => c == '/') ('/' :: W) =
        [] :: splitOnP (fun c => c == '/') W from by
      simp only [splitOnP]; rw [if_pos (by decide)]] at ih2
    injection ih2 with _ h4
    rw [h4]
    rfl

/-- `split_path` of a slash-terminated rendered path decodes the
segments. -/
theorem split_path_render (segs : List Str)
    (hsegs : ∀ t ∈ segs, t ≠ [] ∧ ∀ c ∈ t, (c == '/') = false) :
    split_path (renderPath segs ++ [('/' : Char)]) = segs.map unquote := by
  unfold split_path
  rw [show splitOnChar '/' (renderPath segs ++ ['/']) = [] :: (segs ++ [[]])
    from splitOnChar_renderPath segs (fun t ht => (hsegs t ht).2)]
  rw [List.filter_cons, List.filter_append]
  have hkeep : segs.filter (fun t => !t.isEmpty) = segs := by
    rw [List.filter_eq_self]
    intro t ht
    have := (hsegs t ht).1
    simpa [List.isEmpty_iff] using this
  rw [hkeep]
  simp

/-- Mapping a pointwise-identity function is the identity. -/
theorem map_eq_self_of (l : List Str) (f : Str → Str)
    (h : ∀ a ∈ l, f a = a) : l.map f = l := by
  induction l with
  | nil => rfl
  | cons a t ih =>
    rw [List.map_cons, h a (List.mem_cons_self a t),
      ih (fun b hb => h b (List.mem_cons_of_mem a hb))]

/-- Encoding distributes over appending. -/
theorem quote_append (safe a b : Str) :
    quote safe (a ++ b) = quote safe a ++ quote safe b := by
  unfold quote
  exact List.flatMap_append a b (quoteChar safe)

/-- Keeping `/` safe changes nothing on a slash-free character. -/
theorem quoteChar_safe_slash (c : Char) (h : (c == '/') = false) :
    quoteChar [('/' : Char)] c = quoteChar [] c := by
  unfold quoteChar
  have h2 : ([('/' : Char)] : Str).contains c = false := by
    simp only [List.contains_cons, List.contains_nil, Bool.or_false]
    have h3 : ¬ c = '/' := by simpa using h
    simp [h3, BEq.comm]
  rw [h2]
  rfl

/-- Keeping `/` safe changes nothing on a slash-free string. -/
theorem quote_safe_slash_eq (t : Str) (h : ∀ c ∈ t, (c == '/') = false) :
    quote [('/' : Char)] t = quote [] t := by
  induction t with
  | nil => rfl
  | cons c t2 ih =>
    show quoteChar [('/' : Char)] c ++ quote [('/' : Char)] t2 = _
    rw [quoteChar_safe_slash c (h c (List.mem_cons_self c t2)),
      ih (fun d hd => h d (List.mem_cons_of_mem c hd))]
    rfl

/-- Encoding a rendered path while keeping `/` safe encodes the segments
pointwise. -/
theorem quote_slash_renderPath (segs : List Str)
    (hsegs : ∀ t ∈ segs, ∀ c ∈ t, (c == '/') = false) :
    quote [('/' : Char)] (renderPath segs) =
      renderPath (segs.map (quote [])) := by
  induction segs with
  | nil => rfl
  | cons t rest ih =>
    rw [renderPath_cons]
    show quoteChar [('/' : Char)] '/' ++
      quote [('/' : Char)] (t ++ renderPath rest) = _
    rw [show quoteChar [('/' : Char)] '/' = ['/'] from by decide,
      quote_append, quote_safe_slash_eq t (hsegs t (List.mem_cons_self t rest)),
      ih (fun t2 h2 => hsegs t2 (List.mem_cons_of_mem t h2))]
    rfl

/-- A rendered path appending one segment. -/
theorem renderPath_concat (a : List Str) (t : Str) :
    renderPath (a ++ [t]) = renderPath a ++ '/' :: t := by
  unfold renderPath
  rw [List.flatMap_append]
  simp

/-- The characters of a rendered path are slashes or segment
characters. -/
theorem renderPath_chars (X : List Str) (d : Char)
    (hd : d ∈ renderPath X) : d = '/' ∨ ∃ t ∈ X, d ∈ t := by
  unfold renderPath at hd
  rw [List.mem_flatMap] at hd
  obtain ⟨t, ht, hdt⟩ := hd
  rw [List.mem_cons] at hdt
  cases hdt with
  | inl h2 => exact Or.inl h2
  | inr h2 => exact Or.inr ⟨t, ht, h2⟩

/-- The slash-joined segments prefixed with a slash are the rendered
path. -/
theorem renderPath_eq_join (segs : List Str) (h : segs ≠ []) :
    '/' :: joinChar '/' segs = renderPath segs := by
  induction segs with
  | nil => exact absurd rfl h
  | cons t rest ih =>
    cases rest with
    | nil =>
      show '/' :: t = renderPath [t]
      rw [renderPath_cons]
      show _ = '/' :: (t ++ renderPath [])
      rw [show renderPath ([] : List Str) = [] from rfl, List.append_nil]
    | cons t2 r2 =>
      show '/' :: (t ++ '/' :: joinChar '/' (t2 :: r2)) = _
      rw [renderPath_cons, ih (by simp)]

/-- The characters of a host-and-port fragment are neither slashes nor
question marks. -/
theorem hostport_chars (host : Str) (hh : hostOk host = true)
    (port : Option Nat) :
    ∀ c ∈ host ++ portRender port, (!(c == '/') && !(c == '?')) = true := by
  obtain ⟨_, hchars⟩ := hostOk_spec host hh
  intro c hc
  rw [List.mem_append] at hc
  cases hc with
  | inl h2 =>
    have h3 := (hostChar_facts c (hchars c h2)).2.2.1
    have h4 := (hostChar_facts c (hchars c h2)).2.2.2.1
    rw [h3, h4]
    rfl
  | inr h2 =>
    cases port with
    | none => exact absurd h2 (List.not_mem_nil c)
    | some q =>
      rw [show portRender (some q) = ':' :: natDigits q from rfl,
        List.mem_cons] at h2
      cases h2 with
      | inl h3 => subst h3; decide
      | inr h3 =>
        have h4 := (digit_facts c (natDigits_isDigit q c h3)).2.2.1
        have h5 := (digit_facts c (natDigits_isDigit q c h3)).2.2.2
        rw [h4, h5]
        rfl

/-- The pushjet URL under the canonical-state discipline, re-associated
into the rendered shape the parser lemmas consume. -/
theorem pushjet_url_shape (n : NotifyPushjet)
    (hauth : authOk n.user n.password = true)
    (hport : portOk n.port n.secure = true) :
    (Notifier.pushjet n).url false =
      (if n.secure then NotifyPushjet.secure_protocol
        else NotifyPushjet.protocol) ++
        ':' :: '/' :: '/' ::
        ((pushjetAuth n ++ (n.host ++ portRender n.port)) ++
          (('/' :: (quote [] n.secret_key ++ ['/'])) ++
            '?' :: urlencode (url_parameters n.verify_certificate))) := by
  show NotifyPushjet.url n false = _
  have hauth2 : (if truthy n.user && truthy n.password then
      quote [] (n.user.getD []) ++
        ':' :: pprint (n.password.getD []) false [] ++ [('@' : Char)]
    else []) = pushjetAuth n := by
    cases hu : n.user with
    | none => simp [truthy, pushjetAuth, hu]
    | some u =>
      cases hp2 : n.password with
      | none =>
        rw [hu, hp2] at hauth
        exact absurd hauth (by simp [authOk])
      | some p =>
        rw [hu, hp2] at hauth
        unfold authOk at hauth
        simp only [Bool.and_eq_true] at hauth
        simp [truthy, pushjetAuth, pprint, hu, hp2, hauth.1.1.1,
          hauth.1.1.2]
  have hport2 : (match n.port with
      | none => ([] : Str)
      | some p => if p = (if n.secure then 443 else 80) then []
        else ':' :: natDigits p) = portRender n.port := by
    cases hq : n.port with
    | none => rfl
    | some p =>
      rw [hq] at hport
      unfold portOk at hport
      simp only [Bool.and_eq_true, decide_eq_true_eq] at hport
      show (if p = (if n.secure then 443 else 80) then []
        else ':' :: natDigits p) = ':' :: natDigits p
      rw [if_neg hport.2]
  simp only [NotifyPushjet.url, hauth2, hport2]
  rw [show str "://" = [':', '/', '/'] from rfl,
    show str "/?" = ['/', '?'] from rfl,
    show pprint n.secret_key false [] = quote [] n.secret_key from rfl]
  simp only [List.append_assoc, List.cons_append, List.nil_append]

/-- The full pushjet round trip given the authority parse and the URL
shape. -/
theorem pushjet_roundtrip_core (n : NotifyPushjet) (netloc : Str)
    (hnetchars : ∀ c ∈ netloc, (!(c == '/') && !(c == '?')) = true)
    (hnetparse : parseNetloc netloc =
      some (n.user, n.password, n.host, n.port))
    (hne : n.secret_key ≠ [])
    (hascii : ∀ c ∈ n.secret_key, c.toNat < 256)
    (hstrip : strip n.secret_key = n.secret_key)
    (hurl : (Notifier.pushjet n).url false =
      (if n.secure then NotifyPushjet.secure_protocol
        else NotifyPushjet.protocol) ++
        ':' :: '/' :: '/' :: (netloc ++
          (('/' :: (quote [] n.secret_key ++ ['/'])) ++
            '?' :: urlencode (url_parameters n.verify_certificate)))) :
    instantiateNotifier ((Notifier.pushjet n).url false) =
      some (.pushjet n) := by
  rw [hurl]
  have hs1 : (if n.secure then NotifyPushjet.secure_protocol
      else NotifyPushjet.protocol) ≠ [] := by
    cases n.secure <;> decide
  have hs2 : ∀ c ∈ (if n.secure then NotifyPushjet.secure_protocol
      else NotifyPushjet.protocol), isSchemaChar c = true := by
    cases n.secure <;> decide
  have hs3 : toLowerStr (if n.secure then NotifyPushjet.secure_protocol
      else NotifyPushjet.protocol) =
      (if n.secure then NotifyPushjet.secure_protocol
        else NotifyPushjet.protocol) := by
    cases n.secure <;> decide
  have hslast : ((if n.secure then NotifyPushjet.secure_protocol
      else NotifyPushjet.protocol).getLast? == some 's') = n.secure := by
    cases n.secure <;> decide
  have hdisp : ((if n.secure then NotifyPushjet.secure_protocol
      else NotifyPushjet.protocol) = NotifyPushjet.protocol ∨
      (if n.secure then NotifyPushjet.secure_protocol
        else NotifyPushjet.protocol) = NotifyPushjet.secure_protocol) := by
    cases n.secure with
    | true => exact Or.inr (by decide)
    | false => exact Or.inl (by decide)
  have hqsd : parseQsd (urlencode (url_parameters n.verify_certificate)) =
      url_parameters n.verify_certificate :=
    parseQsd_urlencode _ (by cases n.verify_certificate <;> decide)
  have hpath2 : ∀ c ∈ quote [] n.secret_key ++ [('/' : Char)],
      (c == '?') = false := by
    intro c hc
    rw [List.mem_append, List.mem_singleton] at hc
    cases hc with
    | inl h2 =>
      exact quote_all_ne n.secret_key hascii '?' (by decide) (by decide)
        (by decide) (by decide) c h2
    | inr h2 => subst h2; decide
  have hgen := parseGeneric_render
    (if n.secure then NotifyPushjet.secure_protocol
      else NotifyPushjet.protocol) netloc
    (quote [] n.secret_key ++ ['/'])
    (urlencode (url_parameters n.verify_certificate))
    n.user n.password n.host n.port hs1 hs2 hs3 hnetchars hpath2 hnetparse
  have hsplitS := splitSchema_concat
    (if n.secure then NotifyPushjet.secure_protocol
      else NotifyPushjet.protocol)
    (netloc ++ (('/' :: (quote [] n.secret_key ++ ['/'])) ++
      '?' :: urlencode (url_parameters n.verify_certificate))) hs1 hs2 hs3
  have hsplitpath : split_path ('/' :: (quote [] n.secret_key ++ ['/'])) =
      [n.secret_key] := by
    have hq_ne : quote [] n.secret_key ≠ [] := by
      cases hsk : n.secret_key with
      | nil => exact absurd hsk hne
      | cons c t => exact quote_ne_nil [] c t
    have hsp := split_path_render [quote [] n.secret_key] (by
      intro t ht
      rw [List.mem_singleton] at ht
      subst ht
      exact ⟨hq_ne, quote_all_ne n.secret_key hascii '/' (by decide)
        (by decide) (by decide) (by decide)⟩)
    rw [show renderPath [quote [] n.secret_key] ++ ['/'] =
        '/' :: (quote [] n.secret_key ++ ['/']) from by
      rw [renderPath_cons, show renderPath ([] : List Str) = [] from rfl]
      simp] at hsp
    rw [hsp, List.map_singleton, unquote_quote [] rfl n.secret_key hascii]
  have hlookup_secret :
      qsdLookup (url_parameters n.verify_certificate) (str "secret") =
        none := by
    cases n.verify_certificate <;> decide
  have hilem : n.secret_key.isEmpty = false := by
    cases hsk : n.secret_key with
    | nil => exact absurd hsk hne
    | cons c t => rfl
  have hver : (match qsdLookup (url_parameters n.verify_certificate)
        (str "verify") with
      | some v => parse_bool v true
      | none => true) = n.verify_certificate := by
    cases n.verify_certificate <;> decide
  simp only [instantiateNotifier, hsplitS]
  rw [if_pos hdisp]
  simp only [NotifyPushjet.parse_url, hgen, hqsd, hlookup_secret,
    hsplitpath, List.head?_cons]
  simp only [NotifyPushjet.init, validate_regex, hstrip, hilem,
    Bool.false_eq_true, if_false]
  simp only [hslast, hver]

/-- The pushjet round trip over canonical states. -/
theorem pushjet_roundtrip (n : NotifyPushjet)
    (hh : hostOk n.host = true) (hauth : authOk n.user n.password = true)
    (hport : portOk n.port n.secure = true)
    (htok : tokenOk n.secret_key = true) :
    instantiateNotifier ((Notifier.pushjet n).url false) =
      some (.pushjet n) := by
  unfold tokenOk at htok
  simp only [Bool.and_eq_true] at htok
  have hne : n.secret_key ≠ [] := by
    have h2 := htok.1.1
    cases hsk : n.secret_key with
    | nil => rw [hsk] at h2; exact absurd h2 (by decide)
    | cons c t => simp
  have hascii := asciiOk_spec _ htok.1.2
  have hstrip : strip n.secret_key = n.secret_key := by
    have h2 := htok.2
    simpa using h2
  have hp : ∀ q, n.port = some q → 1 ≤ q ∧ q ≤ 65535 := by
    intro q hq
    rw [hq] at hport
    unfold portOk at hport
    simp only [Bool.and_eq_true, decide_eq_true_eq] at hport
    exact ⟨hport.1.1, hport.1.2⟩
  have hurl := pushjet_url_shape n hauth hport
  cases hu : n.user with
  | none =>
    cases hp2 : n.password with
    | some p =>
      rw [hu, hp2] at hauth
      exact absurd hauth (by simp [authOk])
    | none =>
      have hA : pushjetAuth n = [] := by simp [pushjetAuth, hu, hp2]
      rw [hA, List.nil_append] at hurl
      refine pushjet_roundtrip_core n (n.host ++ portRender n.port)
        (hostport_chars n.host hh n.port) ?_ hne hascii hstrip hurl
      rw [hu, hp2]
      exact parseNetloc_no_auth n.host hh n.port hp
  | some u =>
    cases hp2 : n.password with
    | none =>
      rw [hu, hp2] at hauth
      exact absurd hauth (by simp [authOk])
    | some p =>
      rw [hu, hp2] at hauth
      unfold authOk at hauth
      simp only [Bool.and_eq_true] at hauth
      obtain ⟨⟨⟨hu1, hp1⟩, hu2⟩, hp2a⟩ := hauth
      have huascii := asciiOk_spec u hu2
      have hpascii := asciiOk_spec p hp2a
      have hA : pushjetAuth n ++ (n.host ++ portRender n.port) =
          (quote [] u ++ ':' :: quote [] p) ++
            '@' :: (n.host ++ portRender n.port) := by
        simp [pushjetAuth, hu, hp2, List.append_assoc]
      rw [hA] at hurl
      refine pushjet_roundtrip_core n
        ((quote [] u ++ ':' :: quote [] p) ++
          '@' :: (n.host ++ portRender n.port)) ?_ ?_ hne hascii hstrip hurl
      · intro c hc
        simp only [List.append_assoc, List.cons_append, List.mem_append,
          List.mem_cons] at hc
        rcases hc with h2 | h2 | h2 | h2 | h2
        · rw [quote_all_ne u huascii '/' (by decide) (by decide) (by decide)
            (by decide) c h2,
            quote_all_ne u huascii '?' (by decide) (by decide) (by decide)
            (by decide) c h2]
          rfl
        · subst h2; decide
        · rw [quote_all_ne p hpascii '/' (by decide) (by decide) (by decide)
            (by decide) c h2,
            quote_all_ne p hpascii '?' (by decide) (by decide) (by decide)
            (by decide) c h2]
          rfl
        · subst h2; decide
        · exact hostport_chars n.host hh n.port c (List.mem_append.mpr h2)
      · rw [hu, hp2]
        exact parseNetloc_userpass_auth u p huascii hpascii n.host hh
          n.port hp

/-- The mattermost URL under the canonical-state discipline, re-associated
into the rendered shape the parser lemmas consume. -/
theorem mattermost_url_shape (n : NotifyMattermost) (segs : List Str)
    (hfp : n.fullpath = renderPath segs)
    (hsegs : ∀ t ∈ segs, segOk t = true)
    (hport : portOk n.port n.secure = true) :
    (Notifier.mattermost n).url false =
      (if n.secure then NotifyMattermost.secure_protocol
        else NotifyMattermost.protocol) ++
        ':' :: '/' :: '/' ::
        ((mmAuth n ++ (n.host ++ portRender n.port)) ++
          ((renderPath (segs.map (fun t => quote [] t) ++
              [quote [] n.token]) ++ [('/' : Char)]) ++
            '?' :: urlencode (mmParams n))) := by
  show NotifyMattermost.url n false = _
  have hslashall : ∀ t ∈ segs, ∀ c ∈ t, (c == '/') = false := by
    intro t ht c hc
    have h3 := hsegs t ht
    unfold segOk at h3
    simp only [Bool.and_eq_true, List.all_eq_true] at h3
    have h4 := h3.2 c hc
    simpa using h4.1
  have hbot : (if truthy n.user then
      quote [] (n.user.getD []) ++ [('@' : Char)] else []) = mmAuth n := by
    cases hu : n.user with
    | none => simp [truthy, mmAuth, hu]
    | some u =>
      cases hui : u.isEmpty with
      | true => simp [truthy, mmAuth, hu, hui]
      | false => simp [truthy, mmAuth, hu, hui]
  have hport2 : (match n.port with
      | none => ([] : Str)
      | some p => if p = (if n.secure then 443 else 80) then []
        else ':' :: natDigits p) = portRender n.port := by
    cases hq : n.port with
    | none => rfl
    | some p =>
      rw [hq] at hport
      unfold portOk at hport
      simp only [Bool.and_eq_true, decide_eq_true_eq] at hport
      show (if p = (if n.secure then 443 else 80) then []
        else ':' :: natDigits p) = ':' :: natDigits p
      rw [if_neg hport.2]
  have hpp : (if n.fullpath.isEmpty then [('/' : Char)]
      else quote [('/' : Char)] n.fullpath ++ ['/']) =
      renderPath (segs.map (fun t => quote [] t)) ++ [('/' : Char)] := by
    cases hsg : segs with
    | nil => rw [hfp, hsg]; rfl
    | cons t rest =>
      rw [hfp, hsg, if_neg (by rw [renderPath_cons]; simp)]
      rw [quote_slash_renderPath (t :: rest)
        (fun t2 ht2 => hslashall t2 (hsg ▸ ht2))]
  simp only [NotifyMattermost.url, mmParams, hbot, hport2, hpp]
  rw [show str "://" = [':', '/', '/'] from rfl,
    show str "/?" = ['/', '?'] from rfl,
    show pprint n.token false [] = quote [] n.token from rfl]
  rw [renderPath_concat]
  simp only [List.append_assoc, List.cons_append, List.nil_append]

/-- The mattermost round trip at the identifier level, given the
authority parse and the URL shape. -/
theorem mattermost_roundtrip_core (n : NotifyMattermost) (segs : List Str)
    (netloc : Str) (user password : Option Str)
    (hnetchars : ∀ c ∈ netloc, (!(c == '/') && !(c == '?')) = true)
    (hnetparse : parseNetloc netloc = some (user, password, n.host, n.port))
    (hfp : n.fullpath = renderPath segs)
    (hsegs : ∀ t ∈ segs, segOk t = true)
    (htokne : n.token ≠ [])
    (htokascii : ∀ c ∈ n.token, c.toNat < 256)
    (htokstrip : strip n.token = n.token)
    (hurl : (Notifier.mattermost n).url false =
      (if n.secure then NotifyMattermost.secure_protocol
        else NotifyMattermost.protocol) ++
        ':' :: '/' :: '/' :: (netloc ++
          ((renderPath (segs.map (fun t => quote [] t) ++
              [quote [] n.token]) ++ [('/' : Char)]) ++
            '?' :: urlencode (mmParams n)))) :
    (instantiateNotifier ((Notifier.mattermost n).url false)).map
        Notifier.url_identifier =
      some (Notifier.mattermost n).url_identifier := by
  have hsegfacts : ∀ t ∈ segs, t ≠ [] ∧ (∀ c ∈ t, c.toNat < 256) ∧
      ∀ c ∈ t, (c == '/') = false := by
    intro t ht
    have h3 := hsegs t ht
    unfold segOk at h3
    simp only [Bool.and_eq_true, List.all_eq_true] at h3
    refine ⟨?_, asciiOk_spec t h3.1.2, ?_⟩
    · intro he
      rw [he] at h3
      exact absurd h3.1.1 (by decide)
    · intro c hc
      have h4 := h3.2 c hc
      simpa using h4.1
  obtain ⟨path2, hpsh⟩ : ∃ p2 : Str,
      renderPath (segs.map (fun t => quote [] t) ++ [quote [] n.token]) ++
        [('/' : Char)] = '/' :: p2 := by
    cases hA : segs.map (fun t => quote [] t) with
    | nil =>
      refine ⟨quote [] n.token ++ ['/'], ?_⟩
      rw [List.nil_append, renderPath_cons,
        show renderPath ([] : List Str) = [] from rfl, List.append_nil,
        List.cons_append]
    | cons t rest =>
      refine ⟨t ++ (renderPath (rest ++ [quote [] n.token]) ++ ['/']), ?_⟩
      rw [List.cons_append, renderPath_cons, List.cons_append,
        List.append_assoc]
  rw [hpsh] at hurl
  rw [hurl]
  have hs1 : (if n.secure then NotifyMattermost.secure_protocol
      else NotifyMattermost.protocol) ≠ [] := by
    cases n.secure <;> decide
  have hs2 : ∀ c ∈ (if n.secure then NotifyMattermost.secure_protocol
      else NotifyMattermost.protocol), isSchemaChar c = true := by
    cases n.secure <;> decide
  have hs3 : toLowerStr (if n.secure then NotifyMattermost.secure_protocol
      else NotifyMattermost.protocol) =
      (if n.secure then NotifyMattermost.secure_protocol
        else NotifyMattermost.protocol) := by
    cases n.secure <;> decide
  have hslast : ((if n.secure then NotifyMattermost.secure_protocol
      else NotifyMattermost.protocol).getLast? == some 's') = n.secure := by
    cases n.secure <;> decide
  have hnotpj : ¬((if n.secure then NotifyMattermost.secure_protocol
      else NotifyMattermost.protocol) = NotifyPushjet.protocol ∨
      (if n.secure then NotifyMattermost.secure_protocol
        else NotifyMattermost.protocol) = NotifyPushjet.secure_protocol) := by
    cases n.secure <;> decide
  have hdisp : ((if n.secure then NotifyMattermost.secure_protocol
      else NotifyMattermost.protocol) = NotifyMattermost.protocol ∨
      (if n.secure then NotifyMattermost.secure_protocol
        else NotifyMattermost.protocol) =
          NotifyMattermost.secure_protocol) := by
    cases n.secure with
    | true => exact Or.inr (by decide)
    | false => exact Or.inl (by decide)
  have hpath2 : ∀ c ∈ path2, (c == '?') = false := by
    intro c hc
    have hmem : c ∈ renderPath (segs.map (fun t => quote [] t) ++
        [quote [] n.token]) ++ [('/' : Char)] := by
      rw [hpsh]
      exact List.mem_cons_of_mem _ hc
    rw [List.mem_append, List.mem_singleton] at hmem
    cases hmem with
    | inl h2 =>
      rcases renderPath_chars _ c h2 with h3 | ⟨t, ht, hct⟩
      · subst h3; decide
      · rw [List.mem_append, List.mem_singleton] at ht
        cases ht with
        | inl h4 =>
          rw [List.mem_map] at h4
          obtain ⟨s, hs, hqs⟩ := h4
          subst hqs
          exact quote_all_ne s (hsegfacts s hs).2.1 '?' (by decide)
            (by decide) (by decide) (by decide) c hct
        | inr h4 =>
          subst h4
          exact quote_all_ne n.token htokascii '?' (by decide) (by decide)
            (by decide) (by decide) c hct
    | inr h2 => subst h2; decide
  have hgen := parseGeneric_render
    (if n.secure then NotifyMattermost.secure_protocol
      else NotifyMattermost.protocol) netloc path2
    (urlencode (mmParams n)) user password n.host n.port
    hs1 hs2 hs3 hnetchars hpath2 hnetparse
  have hsplitS := splitSchema_concat
    (if n.secure then NotifyMattermost.secure_protocol
      else NotifyMattermost.protocol)
    (netloc ++ (('/' :: path2) ++ '?' :: urlencode (mmParams n)))
    hs1 hs2 hs3
  have hsplitpath : split_path ('/' :: path2) = segs ++ [n.token] := by
    have hsp := split_path_render
      (segs.map (fun t => quote [] t) ++ [quote [] n.token]) (by
        intro t ht
        rw [List.mem_append, List.mem_singleton] at ht
        cases ht with
        | inl h4 =>
          rw [List.mem_map] at h4
          obtain ⟨s, hs, hqs⟩ := h4
          subst hqs
          refine ⟨?_, quote_all_ne s (hsegfacts s hs).2.1 '/' (by decide)
            (by decide) (by decide) (by decide)⟩
          obtain ⟨hsne, -, -⟩ := hsegfacts s hs
          cases hss : s with
          | nil => exact absurd hss hsne
          | cons c t2 => exact quote_ne_nil [] c t2
        | inr h4 =>
          subst h4
          refine ⟨?_, quote_all_ne n.token htokascii '/' (by decide)
            (by decide) (by decide) (by decide)⟩
          cases hst : n.token with
          | nil => exact absurd hst htokne
          | cons c t2 => exact quote_ne_nil [] c t2)
    rw [hpsh] at hsp
    rw [List.map_append, List.map_map, List.map_singleton,
      unquote_quote [] rfl n.token htokascii] at hsp
    rw [map_eq_self_of segs (unquote ∘ fun t => quote [] t)
      (fun a ha => unquote_quote [] rfl a (hsegfacts a ha).2.1)] at hsp
    exact hsp
  have hF : (if segs.isEmpty then ([] : Str)
      else '/' :: joinChar '/' segs) = n.fullpath := by
    cases hsg : segs with
    | nil => rw [hfp, hsg]; rfl
    | cons t rest =>
      rw [hfp, hsg, if_neg (by simp)]
      exact renderPath_eq_join (t :: rest) (by simp)
  have hstripfull : strip n.fullpath = n.fullpath := by
    refine strip_all_no_space n.fullpath ?_
    intro c hc
    rw [hfp] at hc
    rcases renderPath_chars segs c hc with h3 | ⟨t, ht, hct⟩
    · subst h3; decide
    · have h3 := hsegs t ht
      unfold segOk at h3
      simp only [Bool.and_eq_true, List.all_eq_true] at h3
      have h4 := h3.2 c hct
      simpa using h4.2
  have hilem : n.token.isEmpty = false := by
    cases hst : n.token with
    | nil => exact absurd hst htokne
    | cons c t => rfl
  simp only [instantiateNotifier, hsplitS]
  rw [if_neg hnotpj]
  rw [if_pos hdisp]
  simp only [NotifyMattermost.parse_url, hgen, hsplitpath,
    List.getLast?_concat, List.dropLast_concat, hF]
  simp only [NotifyMattermost.init, validate_regex, htokstrip, hilem,
    Bool.false_eq_true, if_false]
  simp only [Option.map, Notifier.url_identifier,
    NotifyMattermost.url_identifier, hstripfull, hslast]

/-- The mattermost round trip at the identifier level over canonical
states. -/
theorem mattermost_roundtrip (n : NotifyMattermost)
    (hh : hostOk n.host = true)
    (huser : n.user = none ∨ ∃ u, n.user = some u ∧ asciiOk u = true)
    (hport : portOk n.port n.secure = true)
    (htok : tokenOk n.token = true)
    (hfpex : ∃ segs, n.fullpath = renderPath segs ∧
      ∀ t ∈ segs, segOk t = true) :
    (instantiateNotifier ((Notifier.mattermost n).url false)).map
        Notifier.url_identifier =
      some (Notifier.mattermost n).url_identifier := by
  obtain ⟨segs, hfp, hsegs⟩ := hfpex
  unfold tokenOk at htok
  simp only [Bool.and_eq_true] at htok
  have htokne : n.token ≠ [] := by
    have h2 := htok.1.1
    cases hst : n.token with
    | nil => rw [hst] at h2; exact absurd h2 (by decide)
    | cons c t => simp
  have htokascii := asciiOk_spec _ htok.1.2
  have htokstrip : strip n.token = n.token := by
    have h2 := htok.2
    simpa using h2
  have hp : ∀ q, n.port = some q → 1 ≤ q ∧ q ≤ 65535 := by
    intro q hq
    rw [hq] at hport
    unfold portOk at hport
    simp only [Bool.and_eq_true, decide_eq_true_eq] at hport
    exact ⟨hport.1.1, hport.1.2⟩
  have hurl := mattermost_url_shape n segs hfp hsegs hport
  have hnone : mmAuth n = [] → (instantiateNotifier
      ((Notifier.mattermost n).url false)).map Notifier.url_identifier =
      some (Notifier.mattermost n).url_identifier := by
    intro hA
    rw [hA, List.nil_append] at hurl
    exact mattermost_roundtrip_core n segs (n.host ++ portRender n.port)
      none none (hostport_chars n.host hh n.port)
      (parseNetloc_no_auth n.host hh n.port hp) hfp hsegs htokne htokascii
      htokstrip hurl
  cases hu : n.user with
  | none => exact hnone (by simp [mmAuth, hu])
  | some u =>
    rcases huser with h2 | ⟨u2, hu2, hu2a⟩
    · rw [hu] at h2; exact absurd h2 (by simp)
    · rw [hu] at hu2
      injection hu2 with hu3
      subst hu3
      cases hui : u.isEmpty with
      | true => exact hnone (by simp [mmAuth, hu, hui])
      | false =>
        have huascii := asciiOk_spec u hu2a
        have hA : mmAuth n ++ (n.host ++ portRender n.port) =
            quote [] u ++ '@' :: (n.host ++ portRender n.port) := by
          simp [mmAuth, hu, hui, List.append_assoc]
        rw [hA] at hurl
        refine mattermost_roundtrip_core n segs
          (quote [] u ++ '@' :: (n.host ++ portRender n.port))
          (some u) none ?_ (parseNetloc_user_auth u huascii n.host hh
            n.port hp) hfp hsegs htokne htokascii htokstrip hurl
        intro c hc
        rw [List.mem_append, List.mem_cons] at hc
        rcases hc with h3 | h3 | h3
        · rw [quote_all_ne u huascii '/' (by decide) (by decide) (by decide)
            (by decide) c h3,
            quote_all_ne u huascii '?' (by decide) (by decide) (by decide)
            (by decide) c h3]
          rfl
        · subst h3; decide
        · exact hostport_chars n.host hh n.port c h3

/-- C1 (counterexample): `pjet://u@h/s` constructs a pushjet notifier
carrying a user and no password; its own rendered `url(privacy=False)`
omits the credentials, so re-instantiation yields a different
`url_identifier` tuple. -/
theorem c1_roundtrip_counterexample :
    instantiateNotifier (str "pjet://u@h/s") = some (.pushjet cexPushjet) ∧
      (instantiateNotifier ((Notifier.pushjet cexPushjet).url false)).map
          Notifier.url_identifier ≠
        some (Notifier.pushjet cexPushjet).url_identifier := by
  exact ⟨by decide, by decide⟩

/-- C1 (amended): for every canonical notifier state — credentials either
both present and non-empty or both absent, any explicit port in range and
different from the scheme default, URL-derived host, token and path
shapes — re-parsing the string returned by `url(privacy=False)` through
the instantiation path yields a notifier whose `url_identifier` equals
the original notifier's `url_identifier`. -/
theorem c1_roundtrip_url_identifier (N : Notifier) (h : NotifierWF N) :
    (instantiateNotifier (N.url false)).map Notifier.url_identifier =
      some N.url_identifier := by
  cases N with
  | pushjet n =>
    obtain ⟨hh, hauth, hport, htok⟩ := h
    rw [pushjet_roundtrip n hh hauth hport htok]
    rfl
  | mattermost n =>
    obtain ⟨hh, huser, hport, htok, hfpex⟩ := h
    exact mattermost_roundtrip n hh huser hport htok hfpex

/-- C1 witness: the amended round trip evaluated at a concrete canonical
mattermost notifier. -/
theorem c1_roundtrip_url_identifier_witness :
    NotifierWF (.mattermost demoMattermost) ∧
      (instantiateNotifier ((Notifier.mattermost
          demoMattermost).url false)).map Notifier.url_identifier =
        some (Notifier.mattermost demoMattermost).url_identifier := by
  have hwf : NotifierWF (.mattermost demoMattermost) :=
    ⟨by decide, Or.inl rfl, by decide, by decide, ⟨[], rfl, by simp⟩⟩
  exact ⟨hwf, c1_roundtrip_url_identifier (.mattermost demoMattermost) hwf⟩

end Apprise
